import Mathlib

/-!
# File preview: classification, CSV decoding and CSV table rendering

A shallow embedding of `src/components/FilePreviewModal.js`, of the HTTP
operations and file utilities of `src/services/api.js` (`documentAPI`,
`adminAPI`, `publicAPI`, `previewFile`, `getFileIcon`) and of the handlers of
`src/pages/MyFiles.js`, `src/pages/TeamFiles.js` and `src/pages/AdminPortal.js`
that preview, download, delete, share and add users.

JavaScript strings are modelled as lists of characters (`Str`).  The string
primitives the component uses (`startsWith`, `includes`, `split`, `pop`,
`trim`, `toLowerCase`, `||` on strings) are given as executable functions
first, the component's own functions after them, under their source names.
-/

namespace FilePreview

/-- A JavaScript string, as the list of its characters. -/
abbrev Str := List Char

/-! ## String primitives -/

/-- The test `s.startsWith(pre)`. -/
def startsWith (s pre : Str) : Bool := pre.isPrefixOf s

/-- The test `s.includes(t)`: `t` occurs in `s` as a contiguous run. -/
def includes : Str → Str → Bool
  | [], t => t.isEmpty
  | c :: cs, t => t.isPrefixOf (c :: cs) || includes cs t

/-- The array test `arr.includes(x)`. -/
def arrIncludes (arr : List Str) (x : Str) : Bool := arr.contains x

/-- The call `s.split(sep)` for a one-character separator: the pieces between
the occurrences of `sep`; a string without `sep` gives one piece. -/
def split (sep : Char) : Str → List Str
  | [] => [[]]
  | c :: cs =>
    if c = sep then [] :: split sep cs
    else
      match split sep cs with
      | [] => [[c]]
      | p :: ps => (c :: p) :: ps

/-- Lower-casing of one character.  `String.prototype.toLowerCase` is modelled
on the letters `A`..`Z`; every table the component compares a lower-cased
string with holds digits and the letters `a`..`z` other than `k` only, and no
character outside `A`..`Z`, `a`..`z` is lower-cased by JavaScript to one of
those (U+0130 gives `i` followed by a combining dot, which completes no entry
of a table), so membership in the tables is the same under both. -/
def lowerChar (c : Char) : Char := c.toLower

/-- The call `s.toLowerCase()`. -/
def toLowerCase (s : Str) : Str := s.map lowerChar

/-- The characters `String.prototype.trim` strips: ECMAScript white space and
line terminators. -/
def isWhiteSpace (c : Char) : Bool :=
  let n := c.toNat
  (9 ≤ n && n ≤ 13) || n = 32 || n = 160 || n = 5760 || (8192 ≤ n && n ≤ 8202) ||
    n = 8232 || n = 8233 || n = 8239 || n = 8287 || n = 12288 || n = 65279

/-- The call `s.trimStart()`. -/
def trimStart (s : Str) : Str := s.dropWhile isWhiteSpace

/-- The call `s.trim()`. -/
def trim (s : Str) : Str := (trimStart (trimStart s).reverse).reverse

/-- The expression `a || b` on strings: the empty string is falsy. -/
def orElse (a b : Str) : Str := if a ≠ [] then a else b

/-! ## Classification (`renderPreviewContent`) -/

/-- The renderer a loaded preview is displayed with: one per `return` of
`renderPreviewContent` after the loading, error and no-data guards. -/
inductive RenderStrategy where
  | Image | PDF | Office | CSV | Text | Audio | Video | Unsupported
  deriving DecidableEq, Repr

open RenderStrategy

/-- The source's `isImage`. -/
def isImage (contentType : Str) : Bool :=
  contentType ≠ [] && startsWith contentType "image/".toList

/-- The source's `isPDF`. -/
def isPDF (contentType : Str) : Bool :=
  contentType ≠ [] && contentType = "application/pdf".toList

/-- The source's `isText`. -/
def isText (contentType : Str) : Bool :=
  contentType ≠ [] &&
    (startsWith contentType "text/".toList ||
      contentType = "application/json".toList ||
      contentType = "application/xml".toList)

/-- The table `officeTypes` of `isOfficeDocument`. -/
def officeTypes : List Str :=
  ["application/msword".toList,
   "application/vnd.openxmlformats-officedocument.wordprocessingml.document".toList,
   "application/vnd.ms-excel".toList,
   "application/vnd.openxmlformats-officedocument.spreadsheetml.sheet".toList]

/-- The table `officeExtensions` of `isOfficeDocument`. -/
def officeExtensions : List Str := ["doc".toList, "docx".toList, "xlsx".toList]

/-- The source's `isOfficeDocument`. -/
def isOfficeDocument (contentType fileExtension : Str) : Bool :=
  (contentType ≠ [] && officeTypes.any (fun type => includes contentType type)) ||
    arrIncludes officeExtensions fileExtension

/-- The source's `getFileExtension`: the last piece of the name split on `.`,
in lower case.  `pop()` on an empty array gives `undefined`, on which
`.toLowerCase()` throws: that is the `none` result. -/
def getFileExtension (fileName : Str) : Option Str :=
  if fileName ≠ [] then
    match (split '.' fileName).getLast? with
    | some piece => some (toLowerCase piece)
    | none => none
  else some []

/-- Extension table of the image branch. -/
def imageExtensions : List Str :=
  ["jpg".toList, "jpeg".toList, "png".toList, "gif".toList, "bmp".toList,
   "webp".toList, "svg".toList]

/-- Extension table of the text branch. -/
def textExtensions : List Str :=
  ["txt".toList, "json".toList, "xml".toList, "md".toList, "html".toList,
   "css".toList, "js".toList, "py".toList, "java".toList, "cpp".toList,
   "c".toList, "h".toList]

/-- Extension table of the audio branch. -/
def audioExtensions : List Str := ["mp3".toList, "wav".toList, "ogg".toList, "m4a".toList]

/-- Extension table of the video branch. -/
def videoExtensions : List Str :=
  ["mp4".toList, "webm".toList, "ogg".toList, "avi".toList, "mov".toList]

/-- The chain of tests of `renderPreviewContent` (source lines 112-215) on the
values it has computed: `mimeType` and `fileExtension`. -/
def selectStrategy (mimeType fileExtension : Str) : RenderStrategy :=
  if isImage mimeType || arrIncludes imageExtensions fileExtension then Image
  else if isPDF mimeType || fileExtension = "pdf".toList then PDF
  else if isOfficeDocument mimeType fileExtension then Office
  else if fileExtension = "csv".toList ||
      (mimeType ≠ [] && includes mimeType "csv".toList) then CSV
  else if isText mimeType || arrIncludes textExtensions fileExtension then Text
  else if (mimeType ≠ [] && startsWith mimeType "audio/".toList) ||
      arrIncludes audioExtensions fileExtension then Audio
  else if (mimeType ≠ [] && startsWith mimeType "video/".toList) ||
      arrIncludes videoExtensions fileExtension then Video
  else Unsupported

/-- The source's `renderPreviewContent` for a loaded preview (from line 107
on).  `mimeType` is the value of `docData?.fileType || contentType`, which for
a preview built by `previewFile` is the response's content type, or
`application/octet-stream` when the response has none; `name` is the value of
`fileDocument?.name || ''`.  The result is the renderer of the branch taken,
`none` when evaluation throws. -/
def renderPreviewContent (mimeType name : Str) : Option RenderStrategy :=
  match getFileExtension name with
  | some fileExtension => some (selectStrategy mimeType fileExtension)
  | none => none

/-! ## The tiers as the specification words them -/

/-- The seven tiers in their fixed priority order. -/
def tierOrder : List RenderStrategy := [Image, PDF, Office, CSV, Text, Audio, Video]

/-- The content-type test of each tier, as the specification lists them. -/
def tierContentTypeTest : RenderStrategy → Str → Bool
  | Image, ct => startsWith ct "image/".toList
  | PDF, ct => ct = "application/pdf".toList
  | Office, ct =>
    includes ct "application/msword".toList ||
    includes ct "application/vnd.openxmlformats-officedocument.wordprocessingml.document".toList ||
    includes ct "application/vnd.ms-excel".toList ||
    includes ct "application/vnd.openxmlformats-officedocument.spreadsheetml.sheet".toList
  | CSV, ct => includes ct "csv".toList
  | Text, ct =>
    startsWith ct "text/".toList || ct = "application/json".toList ||
      ct = "application/xml".toList
  | Audio, ct => startsWith ct "audio/".toList
  | Video, ct => startsWith ct "video/".toList
  | Unsupported, _ => false

/-- The extension set of each tier, as the specification lists them. -/
def tierExtensions : RenderStrategy → List Str
  | Image => ["jpg", "jpeg", "png", "gif", "bmp", "webp", "svg"].map String.toList
  | PDF => ["pdf"].map String.toList
  | Office => ["doc", "docx", "xlsx"].map String.toList
  | CSV => ["csv"].map String.toList
  | Text =>
    ["txt", "json", "xml", "md", "html", "css", "js", "py", "java", "cpp", "c", "h"].map
      String.toList
  | Audio => ["mp3", "wav", "ogg", "m4a"].map String.toList
  | Video => ["mp4", "webm", "ogg", "avi", "mov"].map String.toList
  | Unsupported => []

/-- A tier matches when its content-type test or its extension test does. -/
def tierMatches (ct ext : Str) (t : RenderStrategy) : Bool :=
  tierContentTypeTest t ct || decide (ext ∈ tierExtensions t)

/-- The first tier, in the fixed order, that matches; `Unsupported` when none does. -/
def firstMatchingTier (ct ext : Str) : RenderStrategy :=
  (tierOrder.find? (tierMatches ct ext)).getD Unsupported

/-- The text of a name after its last `sep`; the whole name when it holds no
`sep`. -/
def lastPiece (sep : Char) (name : Str) : Str :=
  (name.reverse.takeWhile (fun c => decide (c ≠ sep))).reverse

/-- The extension of a file name: the text after its last `.`, in lower case;
a name without `.` has no extension. -/
def extensionOf (name : Str) : Option Str :=
  if '.' ∈ name then some (toLowerCase (lastPiece '.' name)) else none

/-- A tier matches a content type and a file name when its content-type test
matches, or the name has an extension and it is in the tier's extension set. -/
def tierMatchesName (ct name : Str) (t : RenderStrategy) : Bool :=
  tierContentTypeTest t ct ||
    match extensionOf name with
    | some ext => decide (ext ∈ tierExtensions t)
    | none => false

/-- The classification as the specification words it: the first tier, in the
fixed order, that matches the content type or the extension of the file name;
`Unsupported` when none does. -/
def classify (ct name : Str) : RenderStrategy :=
  (tierOrder.find? (tierMatchesName ct name)).getD Unsupported

/-! ## CSV decoding (`loadCSVContent`) and the table of `CSVFilePreview` -/

/-- The variables of the row parser's loop: `values`, `current`, `inQuotes`. -/
structure RowState where
  values : List Str
  current : Str
  inQuotes : Bool
  deriving DecidableEq, Repr

/-- One turn of the loop `for (let i = 0; i < row.length; i++)` on `row[i]`. -/
def rowStep (st : RowState) (char : Char) : RowState :=
  if char = '"' then
    { st with inQuotes := !st.inQuotes }
  else if char = ',' && !st.inQuotes then
    { st with values := st.values ++ [trim st.current], current := [] }
  else
    { st with current := st.current ++ [char] }

/-- The callback of `rows.map` in `loadCSVContent`: the fields of one line. -/
def parseRow (row : Str) : List Str :=
  let st := row.foldl rowStep { values := [], current := [], inQuotes := false }
  st.values ++ [trim st.current]

/-- The part of `loadCSVContent` from the response text to `parsedData`. -/
def loadCSVContent (text : Str) : List (List Str) :=
  ((split '\n' text).filter (fun row => decide (trim row ≠ []))).map parseRow

/-- The template literal of the header cell, for the number `n`. -/
def columnLabel (n : Nat) : Str := "Column ".toList ++ Nat.toDigits 10 n

/-- The header cells of `CSVFilePreview`: `header || Column (index + 1)` for
each cell of `headers`. -/
def headerCells (headers : List Str) : List Str :=
  headers.mapIdx (fun index header => orElse header (columnLabel (index + 1)))

/-- The cells of one body row of the table: `row[colIndex] || ''` for each
column of `headers`; an index past the end of `row` reads `undefined`. -/
def rowCells (headers : List Str) (row : List Str) : List Str :=
  headers.mapIdx (fun colIndex _ =>
    match row[colIndex]? with
    | some cell => orElse cell []
    | none => [])

/-- The constant `maxRowsToShow` of `CSVFilePreview`. -/
def maxRowsToShow : Nat := 50

/-- The text of the notice above the table: `Showing first {maxRowsToShow}
rows of {dataRows.length} total rows`. -/
def truncationNotice (total : Nat) : Str :=
  "Showing first ".toList ++ Nat.toDigits 10 maxRowsToShow ++ " rows of ".toList ++
    Nat.toDigits 10 total ++ " total rows".toList

/-- What `CSVFilePreview` renders once the content is loaded without error:
the `No data found in CSV file` alert, or the table with the optional notice,
its header cells and its body rows. -/
inductive CSVView where
  | noData
  | table (notice : Option Str) (header : List Str) (body : List (List Str))
  deriving DecidableEq, Repr

/-- The source's `CSVFilePreview` for `csvData` loaded (`loading` false and
`error` empty), from the test `csvData.length === 0` on. -/
def CSVFilePreview (csvData : List (List Str)) : CSVView :=
  if csvData.length = 0 then CSVView.noData
  else
    let headers := csvData.head?.getD []
    let dataRows := csvData.drop 1
    CSVView.table
      (if dataRows.length > maxRowsToShow then some (truncationNotice dataRows.length) else none)
      (headerCells headers)
      ((dataRows.take maxRowsToShow).map (rowCells headers))

/-- The notice of a rendered view, none for the alert. -/
def CSVView.notice? : CSVView → Option Str
  | CSVView.noData => none
  | CSVView.table notice _ _ => notice

/-- The body rows of a rendered view, none for the alert. -/
def CSVView.body : CSVView → List (List Str)
  | CSVView.noData => []
  | CSVView.table _ _ body => body

/-! ## Preview acquisition (`previewFile` of `services/api.js`) -/

/-- The expression `h || d` for a value `h` that may be `undefined`. -/
def valueOr (h : Option Str) (d : Str) : Str :=
  match h with
  | some v => orElse v d
  | none => d

/-- The apostrophe character. -/
def apostrophe : Char := Char.ofNat 39

/-- The characters the pattern `.` does not match: the line terminators. -/
def isLineTerminator (c : Char) : Bool :=
  c = '\n' || c = '\r' || c.toNat = 8232 || c.toNat = 8233

/-- Group 1 of the pattern of `previewFile`, matched at `v`: a quote, the
shortest run without line terminator up to the same quote, and that quote;
failing that, the longest run without `;` and newline. -/
def filenameValue (v : Str) : Str :=
  let plain := v.takeWhile (fun c => !(c = ';' || c = '\n'))
  match v with
  | [] => plain
  | q :: w =>
    if q = apostrophe || q = '"' then
      match w.dropWhile (fun c => !(c = q || isLineTerminator c)) with
      | [] => plain
      | c :: _ =>
        if c = q then q :: (w.takeWhile (fun c => !(c = q || isLineTerminator c)) ++ [q])
        else plain
    else plain

/-- The pattern of `previewFile` tried at the start of `t`: the word
`filename`, the longest run without `;`, `=` and newline, the sign `=`, and
group 1; the result is group 1. -/
def filenameMatchAt (t : Str) : Option Str :=
  if "filename".toList.isPrefixOf t then
    match (t.drop 8).dropWhile (fun c => !(c = ';' || c = '=' || c = '\n')) with
    | [] => none
    | c :: v => if c = '=' then some (filenameValue v) else none
  else none

/-- The call `contentDisposition.match(...)` of `previewFile`: group 1 of the
leftmost match, none for `null`. -/
def filenameMatch : Str → Option Str
  | [] => filenameMatchAt []
  | c :: cs =>
    match filenameMatchAt (c :: cs) with
    | some g => some g
    | none => filenameMatch cs

/-- The call `.replace(/[quotes]/g, '')`: both quote characters removed. -/
def removeQuotes (s : Str) : Str := s.filter (fun c => !(c = apostrophe || c = '"'))

/-- The name `previewFile` derives from the `content-disposition` header. -/
def filenameOf (contentDisposition : Option Str) : Str :=
  match filenameMatch (valueOr contentDisposition []) with
  | some g => removeQuotes g
  | none => "file".toList

/-- What `previewFile` reads of a successful response: the two headers and
`response.data.size`, the number of bytes of the body. -/
structure Response where
  contentType : Option Str
  contentDisposition : Option Str
  size : Nat
  deriving DecidableEq, Repr

/-- The field `document` of the object `previewFile` returns. -/
structure DocumentInfo where
  name : Str
  fileType : Str
  size : Nat
  deriving DecidableEq, Repr

/-- The object `previewFile` returns; `url` is the object URL, identified by a
number, and the field `cleanup` is the function `cleanup` below on `url`. -/
structure PreviewData where
  url : Nat
  contentType : Str
  filename : Str
  document : DocumentInfo
  deriving DecidableEq, Repr

/-- A document of a file list, as the preview reads it. -/
structure FileDocument where
  name : Str
  shareableLink : Option Str
  deriving DecidableEq, Repr

/-- The state of a `FilePreviewModal` (`loading`, `error`, `previewData`) with
the part of the browser it acts on: the object URLs that are live, the next
URL `createObjectURL` will hand out, the log of `revokeObjectURL` calls, the
log of the requests issued, the requests still in flight (by their position
in the log), and the variable `REACT_APP_API_URL`. -/
structure World where
  loading : Bool
  error : Str
  previewData : Option PreviewData
  liveUrls : List Nat
  nextUrl : Nat
  revoked : List Nat
  requests : List Str
  inFlight : List Nat
  env : Option Str
  deriving DecidableEq, Repr

/-- A freshly mounted modal in a browser without object URLs or requests. -/
def World.initial : World :=
  { loading := false, error := [], previewData := none, liveUrls := [], nextUrl := 0,
    revoked := [], requests := [], inFlight := [], env := none }

/-- The constant `API_BASE_URL`. -/
def API_BASE_URL (env : Option Str) : Str := valueOr env "http://localhost:8080/api".toList

/-- The value `shareableLinkId` of `previewFile`; a missing last piece would
print as `undefined` in the URL. -/
def shareableLinkId (shareableLink : Str) : Str :=
  if includes shareableLink ['/'] then
    (split '/' shareableLink).getLast?.getD "undefined".toList
  else shareableLink

/-- The URL `previewFile` requests. -/
def previewUrl (env : Option Str) (shareableLink : Str) : Str :=
  API_BASE_URL env ++ "/documents/share/".toList ++ shareableLinkId shareableLink

/-- The call `URL.revokeObjectURL(url)`: the URL is no longer live; revoking a
URL that is not live changes nothing else and does not throw. -/
def revokeObjectURL (url : Nat) (w : World) : World :=
  { w with liveUrls := w.liveUrls.filter (fun u => decide (u ≠ url)),
           revoked := w.revoked ++ [url] }

/-- The function `cleanup` of a preview object: `URL.revokeObjectURL(url)`. -/
def cleanup (p : PreviewData) (w : World) : World := revokeObjectURL p.url w

/-- The object literal `previewFile` returns, for the object URL `url`. -/
def previewObject (url : Nat) (response : Response) : PreviewData :=
  { url := url,
    contentType := valueOr response.contentType "application/octet-stream".toList,
    filename := filenameOf response.contentDisposition,
    document :=
      { name := filenameOf response.contentDisposition,
        fileType := valueOr response.contentType "application/octet-stream".toList,
        size := response.size } }

/-- The part of `previewFile` that runs once the response has arrived: the
object URL is created by `URL.createObjectURL` and the preview object built. -/
def previewFile (response : Response) (w : World) : PreviewData × World :=
  (previewObject w.nextUrl response,
    { w with liveUrls := w.liveUrls ++ [w.nextUrl], nextUrl := w.nextUrl + 1 })

/-! ## The modal (`FilePreviewModal`): loading, closing, cleanup effect -/

/-- The call `setPreviewData(next)` with the re-run of the effect that depends
on `previewData`: the cleanup function the effect returned for the previous
value is called, which calls `cleanup` of a previous preview object. -/
def setPreviewData (next : Option PreviewData) (w : World) : World :=
  let w1 :=
    match w.previewData with
    | some previous => cleanup previous w
    | none => w
  { w1 with previewData := next }

/-- The message `loadPreview` sets for a document without shareable link. -/
def notShareableMessage : Str :=
  "This document does not have a shareable link for preview.".toList

/-- The shareable link of a document when `fileDocument.shareableLink` is
truthy: present and not the empty string. -/
def truthyLink (fileDocument : FileDocument) : Option Str :=
  match fileDocument.shareableLink with
  | some link => if link ≠ [] then some link else none
  | none => none

/-- The source's `loadPreview` up to its `await`: the flags are reset; without
document or link the error is set and `finally` clears `loading`; otherwise
`previewFile` is called, which issues its request. -/
def loadPreview (fileDocument : Option FileDocument) (w : World) : World :=
  let w1 := { w with loading := true, error := [] }
  match fileDocument.bind truthyLink with
  | none => { w1 with error := notShareableMessage, loading := false }
  | some link =>
    { w1 with requests := w1.requests ++ [previewUrl w1.env link],
              inFlight := w1.inFlight ++ [w1.requests.length] }

/-- The first effect of the modal, run when `show` or `fileDocument` change. -/
def previewEffect (visible : Bool) (fileDocument : Option FileDocument) (w : World) : World :=
  if visible && fileDocument.isSome then loadPreview fileDocument w else w

/-- The rest of `loadPreview` when the request at position `i` of the log
settles: with a response, `previewFile` returns and the preview is stored; with
a failure (`none`), the error is set; `finally` clears `loading`. -/
def loadPreviewSettled (i : Nat) (outcome : Option Response) (w : World) : World :=
  if i ∈ w.inFlight then
    let w1 := { w with inFlight := w.inFlight.filter (fun j => decide (j ≠ i)) }
    match outcome with
    | some response =>
      let r := previewFile response w1
      { setPreviewData (some r.1) r.2 with loading := false }
    | none => { w1 with error := "Failed to load file preview".toList, loading := false }
  else w

/-- The source's `handleClose`: the preview's `cleanup` is called, the preview
is cleared (the cleanup effect runs for the cleared value), the error reset. -/
def handleClose (w : World) : World :=
  let w1 :=
    match w.previewData with
    | some p => cleanup p w
    | none => w
  { setPreviewData none w1 with error := [] }

/-- The preview state of a page (`MyFiles`, `TeamFiles`). -/
structure PageState where
  error : Str
  previewDocument : Option FileDocument
  showPreviewModal : Bool
  deriving DecidableEq, Repr

/-- The source's `handlePreview` of `MyFiles` and `TeamFiles`. -/
def handlePreview (document : FileDocument) (page : PageState) : PageState :=
  if truthyLink document = none then
    { page with
      error :=
        "This document does not have a shareable link for preview. Please share it first.".toList }
  else { page with previewDocument := some document, showPreviewModal := true }

/-! ## Notions the CSV claims are worded with -/

/-- The call `pieces.join(sep)` for a one-character separator. -/
def joinWith (sep : Char) : List Str → Str
  | [] => []
  | [p] => p
  | p :: q :: ps => p ++ sep :: joinWith sep (q :: ps)

/-- A field enclosed in double quotes. -/
def quoteField (field : Str) : Str := '"' :: (field ++ ['"'])

/-- A row written with every field quoted and the fields joined with `,`. -/
def writeRow (row : List Str) : Str := joinWith ',' (row.map quoteField)

/-- Rows written one per line, the lines joined with a newline. -/
def writeCSV (rows : List (List Str)) : Str := joinWith '\n' (rows.map writeRow)

/-- A string has no leading and no trailing white space. -/
def noEdgeWhiteSpace (s : Str) : Bool :=
  s.head?.all (fun c => !isWhiteSpace c) && s.getLast?.all (fun c => !isWhiteSpace c)

/-- A line is blank: it is empty or holds white space only. -/
def isBlank (line : Str) : Bool := line.all isWhiteSpace

/-- Every character of a string paired with the text that precedes it, `pre`
being what precedes the string itself. -/
def withPrefixes (pre : Str) : Str → List (Str × Char)
  | [] => []
  | c :: cs => (pre, c) :: withPrefixes (pre ++ [c]) cs

/-- The number of double quotes in a string. -/
def quoteCount (s : Str) : Nat := s.count '"'

/-- The number of commas of a line preceded by an even number of double quotes. -/
def separatorCount (line : Str) : Nat :=
  ((withPrefixes [] line).filter
    (fun pc => decide (pc.2 = ',') && decide (quoteCount pc.1 % 2 = 0))).length

/-- The number of commas of a line preceded by an odd number of double quotes. -/
def quotedCommaCount (line : Str) : Nat :=
  ((withPrefixes [] line).filter
    (fun pc => decide (pc.2 = ',') && decide (quoteCount pc.1 % 2 = 1))).length

/-- The commas held by a parser state: those of the fields already pushed and
of the field being read. -/
def heldCommas (st : RowState) : Nat :=
  (st.values.map (List.count ',')).sum + st.current.count ','

/-! ## The HTTP operations (`documentAPI`, `adminAPI`, `publicAPI` of `services/api.js`) -/

/-- The HTTP method of a request. -/
inductive Method where
  | GET | POST | PUT | DELETE
  deriving DecidableEq, Repr

/-- A request handed to axios: method, URL, the `headers` option and whether
`responseType` is `blob`; the body is left out. -/
structure Request where
  method : Method
  url : Str
  headers : List (Str × Str)
  blob : Bool
  deriving DecidableEq, Repr

/-- The value of a header of a request, none when the header is not set. -/
def Request.header (r : Request) (name : Str) : Option Str :=
  (r.headers.find? (fun h => decide (h.1 = name))).map Prod.snd

/-- The template literal `Bearer ${token}` for the value `token` read by
`localStorage.getItem('token')`, which is `null` when no token is stored. -/
def bearer (token : Option Str) : Str :=
  "Bearer ".toList ++
    match token with
    | some t => t
    | none => "null".toList

/-- The headers of the operations that send JSON. -/
def jsonHeaders (token : Option Str) : List (Str × Str) :=
  [("Authorization".toList, bearer token), ("Content-Type".toList, "application/json".toList)]

/-- The headers of the operations that set `Authorization` only. -/
def authHeaders (token : Option Str) : List (Str × Str) :=
  [("Authorization".toList, bearer token)]

/-- The operations of `documentAPI` and `adminAPI`, each with the part of its
arguments that enters the URL; `searchDocuments` carries the value of
`encodeURIComponent(searchTerm)`. -/
inductive ApiCall where
  | uploadDocument
  | getMyDocuments
  | getTeamDocuments
  | getDocumentById (id : Str)
  | downloadDocument (id : Str)
  | shareDocument (id : Str)
  | updateDocument (id : Str)
  | deleteDocument (id : Str)
  | searchDocuments (encodedTerm : Str)
  | adminGetAllUsers
  | adminCreateUser
  | adminUpdateUser (id : Str)
  | adminDeleteUser (id : Str)
  | adminGetAllDocuments
  | adminGetTeamDocuments
  | adminDeleteTeamDocument (id : Str)
  | adminGetUserById (id : Str)
  | adminGetActiveUsers
  deriving DecidableEq, Repr

/-- The request an operation of `documentAPI` or `adminAPI` passes to axios;
`env` is the variable `REACT_APP_API_URL` and `token` the value the operation
reads from storage when it is called. -/
def ApiCall.request (env token : Option Str) : ApiCall → Request
  | .uploadDocument =>
    { method := .POST, url := API_BASE_URL env ++ "/documents/upload".toList,
      headers := [("Authorization".toList, bearer token),
        ("Content-Type".toList, "multipart/form-data".toList)], blob := false }
  | .getMyDocuments =>
    { method := .GET, url := API_BASE_URL env ++ "/documents/my-files".toList,
      headers := jsonHeaders token, blob := false }
  | .getTeamDocuments =>
    { method := .GET, url := API_BASE_URL env ++ "/documents/team-files".toList,
      headers := jsonHeaders token, blob := false }
  | .getDocumentById id =>
    { method := .GET, url := API_BASE_URL env ++ "/documents/".toList ++ id,
      headers := jsonHeaders token, blob := false }
  | .downloadDocument id =>
    { method := .GET,
      url := API_BASE_URL env ++ "/documents/".toList ++ id ++ "/download".toList,
      headers := authHeaders token, blob := true }
  | .shareDocument id =>
    { method := .POST, url := API_BASE_URL env ++ "/documents/".toList ++ id ++ "/share".toList,
      headers := jsonHeaders token, blob := false }
  | .updateDocument id =>
    { method := .PUT, url := API_BASE_URL env ++ "/documents/".toList ++ id,
      headers := jsonHeaders token, blob := false }
  | .deleteDocument id =>
    { method := .DELETE, url := API_BASE_URL env ++ "/documents/".toList ++ id,
      headers := authHeaders token, blob := false }
  | .searchDocuments encodedTerm =>
    { method := .GET, url := API_BASE_URL env ++ "/documents/search?q=".toList ++ encodedTerm,
      headers := jsonHeaders token, blob := false }
  | .adminGetAllUsers =>
    { method := .GET, url := API_BASE_URL env ++ "/admin/users".toList,
      headers := jsonHeaders token, blob := false }
  | .adminCreateUser =>
    { method := .POST, url := API_BASE_URL env ++ "/admin/users".toList,
      headers := jsonHeaders token, blob := false }
  | .adminUpdateUser id =>
    { method := .PUT, url := API_BASE_URL env ++ "/admin/users/".toList ++ id,
      headers := jsonHeaders token, blob := false }
  | .adminDeleteUser id =>
    { method := .DELETE, url := API_BASE_URL env ++ "/admin/users/".toList ++ id,
      headers := authHeaders token, blob := false }
  | .adminGetAllDocuments =>
    { method := .GET, url := API_BASE_URL env ++ "/documents/admin/all".toList,
      headers := jsonHeaders token, blob := false }
  | .adminGetTeamDocuments =>
    { method := .GET, url := API_BASE_URL env ++ "/documents/admin/team".toList,
      headers := jsonHeaders token, blob := false }
  | .adminDeleteTeamDocument id =>
    { method := .DELETE, url := API_BASE_URL env ++ "/documents/admin/team/".toList ++ id,
      headers := authHeaders token, blob := false }
  | .adminGetUserById id =>
    { method := .GET, url := API_BASE_URL env ++ "/admin/users/".toList ++ id,
      headers := jsonHeaders token, blob := false }
  | .adminGetActiveUsers =>
    { method := .GET, url := API_BASE_URL env ++ "/admin/users/active".toList,
      headers := jsonHeaders token, blob := false }

/-- The requests a call of an operation issues: every operation reads the
token and calls axios once, without a test in between. -/
def ApiCall.issued (env token : Option Str) (call : ApiCall) : List Request :=
  [call.request env token]

/-- The call `localStorage.setItem('token', t)` on the stored token. -/
def setItem (t : Str) (_stored : Option Str) : Option Str := some t

/-- The call `localStorage.removeItem('token')`. -/
def removeItem (_stored : Option Str) : Option Str := none

/-- The URL `publicAPI.downloadSharedDocument` requests. -/
def downloadSharedDocumentUrl (env : Option Str) (shareableLink : Str) : Str :=
  API_BASE_URL env ++ "/documents/share/".toList ++ shareableLink

/-- The URL `copyShareableLink` of `MyFiles` and of `TeamFiles` requests (the
two handlers are the same text). -/
def copyShareableLinkUrl (env : Option Str) (shareableLink : Str) : Str :=
  valueOr env "http://localhost:8080".toList ++ "/api/documents/share/".toList ++
    shareableLinkId shareableLink

/-! ## The pages (`MyFiles`, `TeamFiles`, `AdminPortal`) and the file utilities -/

/-- The state of a list page that the delete handlers touch: the `documents`
or `users`, and `loading`, `error`, `success`. -/
structure ListPage where
  items : List Str
  loading : Bool
  error : Str
  success : Str
  deriving DecidableEq, Repr

/-- The handler `handleDelete` of `MyFiles`, up to the request that
`fetchDocuments` issues: `confirmed` is what `window.confirm` returned,
`deleted` whether the delete request succeeded, `admin` the value of
`isAdmin()`.  The result is the page state and the requests issued. -/
def MyFiles.handleDelete (env token : Option Str) (admin confirmed deleted : Bool)
    (documentId : Str) (page : ListPage) : ListPage × List Request :=
  if confirmed then
    if deleted then
      ({ page with success := "Document deleted successfully!".toList, loading := true },
        [(ApiCall.deleteDocument documentId).request env token,
         (if admin then ApiCall.adminGetAllDocuments else ApiCall.getMyDocuments).request
           env token])
    else
      ({ page with error := "Failed to delete document".toList },
        [(ApiCall.deleteDocument documentId).request env token])
  else (page, [])

/-- The handler `handleAdminDelete` of `TeamFiles`, in the same way. -/
def TeamFiles.handleAdminDelete (env token : Option Str) (admin confirmed deleted : Bool)
    (documentId : Str) (page : ListPage) : ListPage × List Request :=
  if confirmed then
    if deleted then
      ({ page with success := "Team document deleted successfully!".toList, loading := true },
        [(ApiCall.adminDeleteTeamDocument documentId).request env token,
         (if admin then ApiCall.adminGetTeamDocuments else ApiCall.getTeamDocuments).request
           env token])
    else
      ({ page with error := "Failed to delete team document".toList },
        [(ApiCall.adminDeleteTeamDocument documentId).request env token])
  else (page, [])

/-- The handler `handleDeleteUser` of `AdminPortal`, in the same way. -/
def AdminPortal.handleDeleteUser (env token : Option Str) (confirmed deleted : Bool)
    (userId : Str) (page : ListPage) : ListPage × List Request :=
  if confirmed then
    if deleted then
      ({ page with success := "User deleted successfully!".toList, loading := true },
        [(ApiCall.adminDeleteUser userId).request env token,
         ApiCall.adminGetAllUsers.request env token])
    else
      ({ page with error := "Failed to delete user".toList },
        [(ApiCall.adminDeleteUser userId).request env token])
  else (page, [])

/-- The look-ahead `(?=.*[class])` at the start of a string: some character
of the class stands after a run without line terminator. -/
def lookAhead (cls : Char → Bool) (s : Str) : Bool :=
  match s.dropWhile (fun c => !isLineTerminator c && !cls c) with
  | [] => false
  | c :: _ => cls c

/-- The class `[a-z]`. -/
def isLowerLetter (c : Char) : Bool := 'a'.toNat ≤ c.toNat && c.toNat ≤ 'z'.toNat

/-- The class `[A-Z]`. -/
def isUpperLetter (c : Char) : Bool := 'A'.toNat ≤ c.toNat && c.toNat ≤ 'Z'.toNat

/-- The class `\d`. -/
def isDigit (c : Char) : Bool := '0'.toNat ≤ c.toNat && c.toNat ≤ '9'.toNat

/-- The class `[@$!%*?&]`. -/
def isSpecial (c : Char) : Bool :=
  c = '@' || c = '$' || c = '!' || c = '%' || c = '*' || c = '?' || c = '&'

/-- The class `[A-Za-z\d@$!%*?&]`. -/
def isPasswordChar (c : Char) : Bool :=
  isUpperLetter c || isLowerLetter c || isDigit c || isSpecial c

/-- The test `passwordRegex.test(password)` of `handleAddUser`: the four
look-aheads, then six or more characters of the class up to the end. -/
def passwordRegexTest (password : Str) : Bool :=
  lookAhead isLowerLetter password && lookAhead isUpperLetter password &&
    lookAhead isDigit password && lookAhead isSpecial password &&
    decide (6 ≤ password.length) && password.all isPasswordChar

/-- What the checks of `handleAddUser` lead to: a validation error, or the
`createUser` request. -/
inductive AddUserStep where
  | rejected (error : Str)
  | submitted (request : Request)
  deriving DecidableEq, Repr

/-- The handler `handleAddUser` of `AdminPortal`, up to the call of
`adminAPI.createUser`. -/
def handleAddUser (env token : Option Str) (password confirmPassword : Str) : AddUserStep :=
  if password ≠ confirmPassword then AddUserStep.rejected "Passwords do not match".toList
  else if !passwordRegexTest password then
    AddUserStep.rejected
      ("Password must contain at least one uppercase letter, one lowercase letter, " ++
        "one number, and one special character").toList
  else AddUserStep.submitted (ApiCall.adminCreateUser.request env token)

/-- The list `sharedWithUsers` that `handleShare` of `MyFiles` builds from the
text of the share form. -/
def sharedWithUsers (sharedUsersInput : Str) : List Str :=
  ((split ',' sharedUsersInput).map trim).filter (fun user => decide (user.length > 0))

/-- A document of a file list, as the download handlers read it; `id` is the
identifier as it prints. -/
structure ListedDocument where
  id : Str
  name : Str
  fileName : Str
  deriving DecidableEq, Repr

/-- What a download handler does: the requests it issues and the call of
`downloadFile` it makes, with the content (the text a `Blob` built from the
first argument holds) and the file name. -/
structure DownloadStep where
  requests : List Request
  content : Str
  savedAs : Str
  deriving DecidableEq, Repr

/-- The handler `handleDownload` of `MyFiles` when the request succeeds:
`responseData` is the body the backend returned for the request. -/
def MyFiles.handleDownload (env token : Option Str) (responseData : Str)
    (document : ListedDocument) : DownloadStep :=
  { requests := [(ApiCall.downloadDocument document.id).request env token],
    content := responseData,
    savedAs := document.fileName }

/-- The handler `handleDownload` of `TeamFiles`: `downloadFile` is called with
`document.id` in the place of the content. -/
def TeamFiles.handleDownload (document : ListedDocument) : DownloadStep :=
  { requests := [],
    content := document.id,
    savedAs := document.name }

/-- The source's `getFileIcon`; `fileType` is none for `undefined` or `null`,
on which `.toLowerCase()` throws: that is the `none` result. -/
def getFileIcon (fileType : Option Str) : Option Str :=
  match fileType with
  | none => none
  | some fileType =>
    let type := toLowerCase fileType
    some (
      if includes type "image".toList then "bi-file-earmark-image".toList
      else if includes type "pdf".toList then "bi-file-earmark-pdf".toList
      else if includes type "word".toList || includes type "document".toList then
        "bi-file-earmark-word".toList
      else if includes type "excel".toList || includes type "spreadsheet".toList then
        "bi-file-earmark-excel".toList
      else if includes type "powerpoint".toList || includes type "presentation".toList then
        "bi-file-earmark-ppt".toList
      else if includes type "video".toList then "bi-file-earmark-play".toList
      else if includes type "audio".toList then "bi-file-earmark-music".toList
      else if includes type "text".toList then "bi-file-earmark-text".toList
      else if includes type "zip".toList || includes type "archive".toList then
        "bi-file-earmark-zip".toList
      else "bi-file-earmark".toList)

/-! ## Basic facts about the string primitives -/

theorem split_ne_nil (sep : Char) (s : Str) : split sep s ≠ [] := by
  induction s with
  | nil => simp [split]
  | cons c cs ih =>
    unfold split
    split
    · simp
    · split <;> simp

theorem split_of_not_mem (sep : Char) (s : Str) (h : sep ∉ s) : split sep s = [s] := by
  induction s with
  | nil => rfl
  | cons c cs ih =>
    have hc : c ≠ sep := fun e => h (e ▸ List.mem_cons_self _ _)
    have hcs : sep ∉ cs := fun e => h (List.mem_cons_of_mem _ e)
    simp [split, hc, ih hcs]

theorem getFileExtension_isSome (fileName : Str) :
    ∃ ext, getFileExtension fileName = some ext := by
  unfold getFileExtension
  split
  · cases h : (split '.' fileName).getLast? with
    | none => exact absurd (List.getLast?_eq_none_iff.mp h) (split_ne_nil _ _)
    | some piece => exact ⟨_, rfl⟩
  · exact ⟨_, rfl⟩


theorem isImage_eq (ct : Str) : isImage ct = tierContentTypeTest Image ct := by
  cases ct with
  | nil => rfl
  | cons c cs => simp [isImage, tierContentTypeTest]

theorem isPDF_eq (ct : Str) : isPDF ct = tierContentTypeTest PDF ct := by
  cases ct with
  | nil => rfl
  | cons c cs => simp [isPDF, tierContentTypeTest]

theorem isText_eq (ct : Str) : isText ct = tierContentTypeTest Text ct := by
  cases ct with
  | nil => rfl
  | cons c cs => simp [isText, tierContentTypeTest]

theorem officeTest_eq (ct : Str) :
    (decide (ct ≠ []) && officeTypes.any (fun type => includes ct type)) =
      tierContentTypeTest Office ct := by
  cases ct with
  | nil => rfl
  | cons c cs => simp [officeTypes, tierContentTypeTest, Bool.or_assoc]

theorem csvTest_eq (ct : Str) :
    (decide (ct ≠ []) && includes ct "csv".toList) = tierContentTypeTest CSV ct := by
  cases ct with
  | nil => rfl
  | cons c cs => simp [tierContentTypeTest]

theorem audioTest_eq (ct : Str) :
    (decide (ct ≠ []) && startsWith ct "audio/".toList) = tierContentTypeTest Audio ct := by
  cases ct with
  | nil => rfl
  | cons c cs => simp [tierContentTypeTest]

theorem videoTest_eq (ct : Str) :
    (decide (ct ≠ []) && startsWith ct "video/".toList) = tierContentTypeTest Video ct := by
  cases ct with
  | nil => rfl
  | cons c cs => simp [tierContentTypeTest]


theorem arrIncludes_eq (arr : List Str) (x : Str) : arrIncludes arr x = decide (x ∈ arr) := by
  simp [arrIncludes]

theorem selectStrategy_eq_firstMatchingTier (ct ext : Str) :
    selectStrategy ct ext = firstMatchingTier ct ext := by
  have e1 : arrIncludes imageExtensions ext = decide (ext ∈ tierExtensions Image) := by
    rw [arrIncludes_eq]; rfl
  have e2 : decide (ext = "pdf".toList) = decide (ext ∈ tierExtensions PDF) := by
    simp [tierExtensions]
  have e3 : arrIncludes officeExtensions ext = decide (ext ∈ tierExtensions Office) := by
    rw [arrIncludes_eq]; rfl
  have e4 : decide (ext = "csv".toList) = decide (ext ∈ tierExtensions CSV) := by
    simp [tierExtensions]
  have e5 : arrIncludes textExtensions ext = decide (ext ∈ tierExtensions Text) := by
    rw [arrIncludes_eq]; rfl
  have e6 : arrIncludes audioExtensions ext = decide (ext ∈ tierExtensions Audio) := by
    rw [arrIncludes_eq]; rfl
  have e7 : arrIncludes videoExtensions ext = decide (ext ∈ tierExtensions Video) := by
    rw [arrIncludes_eq]; rfl
  simp only [selectStrategy, isOfficeDocument, isImage_eq, isPDF_eq, isText_eq, officeTest_eq,
    csvTest_eq, audioTest_eq, videoTest_eq, firstMatchingTier, tierOrder, List.find?,
    tierMatches, e1, e2, e3, e4, e5, e6, e7]
  rw [Bool.or_comm (decide (ext ∈ tierExtensions CSV))]
  generalize (tierContentTypeTest Image ct || decide (ext ∈ tierExtensions Image)) = b1
  generalize (tierContentTypeTest PDF ct || decide (ext ∈ tierExtensions PDF)) = b2
  generalize (tierContentTypeTest Office ct || decide (ext ∈ tierExtensions Office)) = b3
  generalize (tierContentTypeTest CSV ct || decide (ext ∈ tierExtensions CSV)) = b4
  generalize (tierContentTypeTest Text ct || decide (ext ∈ tierExtensions Text)) = b5
  generalize (tierContentTypeTest Audio ct || decide (ext ∈ tierExtensions Audio)) = b6
  generalize (tierContentTypeTest Video ct || decide (ext ∈ tierExtensions Video)) = b7
  cases b1 <;> cases b2 <;> cases b3 <;> cases b4 <;> cases b5 <;> cases b6 <;> cases b7 <;> rfl


theorem lowerChar_upper (c : Char) (h : 65 ≤ c.toNat ∧ c.toNat ≤ 90) :
    lowerChar c ≠ '.' ∧ lowerChar (lowerChar c) = lowerChar c := by
  have hc : c = Char.ofNat c.toNat := (Char.ofNat_toNat c).symm
  obtain ⟨h1, h2⟩ := h
  generalize c.toNat = n at hc h1 h2
  subst hc
  interval_cases n <;> decide

theorem lowerChar_other (c : Char) (h : ¬ (65 ≤ c.toNat ∧ c.toNat ≤ 90)) : lowerChar c = c := by
  unfold lowerChar Char.toLower
  simp only [ge_iff_le]
  rw [if_neg h]

theorem lowerChar_idem (c : Char) : lowerChar (lowerChar c) = lowerChar c := by
  by_cases h : 65 ≤ c.toNat ∧ c.toNat ≤ 90
  · exact (lowerChar_upper c h).2
  · rw [lowerChar_other c h, lowerChar_other c h]

theorem lowerChar_eq_dot (c : Char) : lowerChar c = '.' ↔ c = '.' := by
  by_cases h : 65 ≤ c.toNat ∧ c.toNat ≤ 90
  · constructor
    · intro h1
      exact absurd h1 (lowerChar_upper c h).1
    · intro h1
      subst h1
      rfl
  · rw [lowerChar_other c h]

theorem split_map_lower (s : Str) :
    split '.' (toLowerCase s) = (split '.' s).map toLowerCase := by
  induction s with
  | nil => rfl
  | cons c cs ih =>
    have ih2 : split '.' (List.map lowerChar cs) = (split '.' cs).map toLowerCase := ih
    by_cases hc : c = '.'
    · subst hc
      have : lowerChar '.' = '.' := rfl
      simp [toLowerCase, split, this, ih2]
    · have hl : lowerChar c ≠ '.' := fun h => hc ((lowerChar_eq_dot c).mp h)
      simp only [toLowerCase, List.map_cons, split, if_neg hc, if_neg hl, ih2]
      cases split '.' cs with
      | nil => rfl
      | cons p ps => rfl

theorem toLowerCase_idem (s : Str) : toLowerCase (toLowerCase s) = toLowerCase s := by
  simp [toLowerCase, lowerChar_idem]

theorem getFileExtension_toLowerCase (name : Str) :
    getFileExtension (toLowerCase name) = getFileExtension name := by
  cases name with
  | nil => rfl
  | cons c cs =>
    have h1 : toLowerCase (c :: cs) ≠ [] := by simp [toLowerCase]
    have h2 : (c :: cs) ≠ [] := by simp
    simp only [getFileExtension, if_pos h1, if_pos h2, split_map_lower, List.getLast?_map]
    cases (split '.' (c :: cs)).getLast? with
    | none => rfl
    | some piece => simp [toLowerCase_idem]

theorem find?_or_of_before {α : Type} [DecidableEq α] (p q : α → Bool) (l : List α) (T : α)
    (h : l.find? p = some T)
    (hq : ∀ U ∈ l.takeWhile (fun U => decide (U ≠ T)), q U = false) :
    l.find? (fun U => p U || q U) = some T := by
  induction l with
  | nil => simp at h
  | cons a l ih =>
    by_cases hpa : p a = true
    · have haT : a = T := by simpa [List.find?, hpa] using h
      subst haT
      simp [List.find?, hpa]
    · have hpa2 : p a = false := by simpa using hpa
      have h2 : l.find? p = some T := by simpa [List.find?, hpa2] using h
      have hpT : p T = true := List.find?_some h2
      have hne : a ≠ T := fun e => hpa (e ▸ hpT)
      have htw : (a :: l).takeWhile (fun U => decide (U ≠ T)) =
          a :: l.takeWhile (fun U => decide (U ≠ T)) := by
        simp [List.takeWhile, hne]
      rw [htw] at hq
      have hqa : q a = false := hq a (List.mem_cons_self _ _)
      have hq2 : ∀ U ∈ l.takeWhile (fun U => decide (U ≠ T)), q U = false :=
        fun U hU => hq U (List.mem_cons_of_mem _ hU)
      simp [List.find?, hpa2, hqa, ih h2 hq2]

theorem length_split (sep : Char) (s : Str) : (split sep s).length = s.count sep + 1 := by
  induction s with
  | nil => rfl
  | cons c cs ih =>
    by_cases hc : c = sep
    · subst hc
      simp [split, ih]
    · have hne : (c == sep) = false := by simpa using hc
      simp only [split, if_neg hc, List.count_cons, hne]
      cases hsp : split sep cs with
      | nil => exact absurd hsp (split_ne_nil sep cs)
      | cons q qs =>
        rw [hsp] at ih
        simpa using ih

theorem lastPiece_of_not_mem (sep : Char) (s : Str) (h : sep ∉ s) : lastPiece sep s = s := by
  unfold lastPiece
  rw [List.takeWhile_eq_self_iff.mpr, List.reverse_reverse]
  intro x hx
  have hxs : x ∈ s := List.mem_reverse.mp hx
  simpa using fun e : x = sep => h (e ▸ hxs)

theorem takeWhile_append_of_exists {α : Type} (p : α → Bool) (l₁ l₂ : List α)
    (h : ∃ x ∈ l₁, p x = false) : (l₁ ++ l₂).takeWhile p = l₁.takeWhile p := by
  induction l₁ with
  | nil => simp at h
  | cons a l ih =>
    cases hpa : p a with
    | false => simp [List.takeWhile, hpa]
    | true =>
      obtain ⟨x, hx, hpx⟩ := h
      have hxl : x ∈ l := by
        rcases List.mem_cons.mp hx with e | e
        · rw [e, hpa] at hpx
          exact absurd hpx (by simp)
        · exact e
      simp [List.takeWhile, hpa, ih ⟨x, hxl, hpx⟩]

theorem lastPiece_cons_of_mem (sep c : Char) (cs : Str) (h : sep ∈ cs) :
    lastPiece sep (c :: cs) = lastPiece sep cs := by
  unfold lastPiece
  rw [List.reverse_cons, takeWhile_append_of_exists]
  exact ⟨sep, List.mem_reverse.mpr h, by simp⟩

theorem getLast?_split (sep : Char) (s : Str) :
    (split sep s).getLast? = some (lastPiece sep s) := by
  induction s with
  | nil => rfl
  | cons c cs ih =>
    cases hsp : split sep cs with
    | nil => exact absurd hsp (split_ne_nil sep cs)
    | cons q qs =>
      rw [hsp] at ih
      by_cases hmem : sep ∈ cs
      · rw [lastPiece_cons_of_mem sep c cs hmem]
        have hlen := length_split sep cs
        rw [hsp] at hlen
        have hcount : 0 < cs.count sep := List.count_pos_iff.mpr hmem
        cases qs with
        | nil => simp at hlen; omega
        | cons r rs =>
          by_cases hc : c = sep
          · simp only [split, if_pos hc, hsp, List.getLast?_cons_cons]
            simpa using ih
          · simp only [split, if_neg hc, hsp, List.getLast?_cons_cons]
            simpa using ih
      · have hq : split sep cs = [cs] := split_of_not_mem sep cs hmem
        by_cases hc : c = sep
        · subst hc
          have hl : lastPiece c (c :: cs) = cs := by
            unfold lastPiece
            rw [List.reverse_cons,
              List.takeWhile_append_of_pos (fun x hx => by
                have hxs : x ∈ cs := List.mem_reverse.mp hx
                simpa using fun e : x = c => hmem (e ▸ hxs))]
            simp [List.takeWhile]
          simp [split, hq, hl]
        · have hl : lastPiece sep (c :: cs) = c :: cs :=
            lastPiece_of_not_mem sep (c :: cs) (by
              simp only [List.mem_cons, not_or]
              exact ⟨fun e => hc e.symm, hmem⟩)
          simp [split, hc, hq, hl]

theorem getFileExtension_eq_lastPiece (name : Str) :
    getFileExtension name = some (toLowerCase (lastPiece '.' name)) := by
  cases name with
  | nil => rfl
  | cons c cs =>
    have hne : (c :: cs) ≠ [] := by simp
    simp only [getFileExtension, if_pos hne, getLast?_split]

/-! ## Classification: the claims -/

/-- C1: for every content type and file name, `renderPreviewContent` selects
the first tier whose content-type test or extension test matches, with the
lower-cased text after the last `.` of the name as the extension, which is the
classification of the specification for a name with a `.`; for a name without
`.` the code takes the whole name as the extension: the document name `Java`
served as `application/octet-stream` has no extension and no matching tier, so
its classification is Unsupported, and `renderPreviewContent` selects Text. -/
theorem renderPreviewContent_tiers_by_last_piece (contentType name : Str) :
    getFileExtension name = some (toLowerCase (lastPiece '.' name)) ∧
      renderPreviewContent contentType name =
        some (firstMatchingTier contentType (toLowerCase (lastPiece '.' name))) ∧
      renderPreviewContent contentType name =
        some (if '.' ∈ name then classify contentType name
          else firstMatchingTier contentType (toLowerCase name)) ∧
      extensionOf "Java".toList = none ∧
      classify "application/octet-stream".toList "Java".toList = Unsupported ∧
      renderPreviewContent "application/octet-stream".toList "Java".toList = some Text := by
  have hext := getFileExtension_eq_lastPiece name
  have h1 : renderPreviewContent contentType name =
      some (firstMatchingTier contentType (toLowerCase (lastPiece '.' name))) := by
    simp only [renderPreviewContent, hext, selectStrategy_eq_firstMatchingTier]
  refine ⟨hext, h1, ?_, by decide, by decide, by decide⟩
  rw [h1]
  by_cases hdot : '.' ∈ name
  · have hfun : tierMatchesName contentType name =
        tierMatches contentType (toLowerCase (lastPiece '.' name)) := by
      funext t
      simp only [tierMatchesName, tierMatches, extensionOf, if_pos hdot]
    rw [if_pos hdot, classify, firstMatchingTier, hfun]
  · rw [if_neg hdot, lastPiece_of_not_mem '.' name hdot]

/-- C2: classification is total: for every content type and every file name,
the empty ones included, `renderPreviewContent` returns exactly one strategy,
one of the eight, and does not throw. -/
theorem renderPreviewContent_total (contentType name : Str) :
    ∃! s, renderPreviewContent contentType name = some s ∧
      s ∈ [Image, PDF, Office, CSV, Text, Audio, Video, Unsupported] := by
  obtain ⟨ext, hext⟩ := getFileExtension_isSome name
  refine ⟨selectStrategy contentType ext, ⟨?_, ?_⟩, ?_⟩
  · simp only [renderPreviewContent, hext]
  · cases selectStrategy contentType ext <;> simp
  · rintro s ⟨hs, -⟩
    simp only [renderPreviewContent, hext, Option.some.injEq] at hs
    exact hs.symm

/-- C3: a file name whose extension is `csv`, served with content type
`text/plain`, is classified CSV (and so not Text). -/
theorem renderPreviewContent_csv_before_text (name : Str)
    (h : getFileExtension name = some "csv".toList) :
    renderPreviewContent "text/plain".toList name = some CSV := by
  simp only [renderPreviewContent, h]
  decide

/-- Witness of C3 at the name `data.csv`. -/
theorem renderPreviewContent_csv_before_text_witness :
    getFileExtension "data.csv".toList = some "csv".toList ∧
      renderPreviewContent "text/plain".toList "data.csv".toList = some CSV :=
  ⟨by decide, renderPreviewContent_csv_before_text "data.csv".toList (by decide)⟩

/-- C4, as stated, fails: the content type `IMAGE/PNG` with the name `photo`
is classified Unsupported, while its lower-case form `image/png` is classified
Image. -/
theorem renderPreviewContent_contentType_case_sensitive :
    toLowerCase "IMAGE/PNG".toList = "image/png".toList ∧
      renderPreviewContent "IMAGE/PNG".toList "photo".toList = some Unsupported ∧
      renderPreviewContent (toLowerCase "IMAGE/PNG".toList) "photo".toList = some Image ∧
      renderPreviewContent "IMAGE/PNG".toList "photo".toList ≠
        renderPreviewContent (toLowerCase "IMAGE/PNG".toList) "photo".toList := by
  decide

/-- C4, amended: the content type is tested as received and only the file
name is normalised: classifying `(c, f)` gives the same strategy as classifying
`(c, lowercase f)`; `IMAGE/PNG` with a name without a known extension is
Unsupported and `image/png` with the same name is Image. -/
theorem renderPreviewContent_name_lowercase (contentType name : Str) :
    renderPreviewContent contentType name =
        renderPreviewContent contentType (toLowerCase name) ∧
      renderPreviewContent "IMAGE/PNG".toList "photo".toList = some Unsupported ∧
      renderPreviewContent "image/png".toList "photo".toList = some Image := by
  refine ⟨?_, by decide, by decide⟩
  simp only [renderPreviewContent, getFileExtension_toLowerCase]

/-- C5, as stated, fails: `text/plain` is a precise content type matching the
Text tier's test, yet the names `a.png` and `a.txt` are classified
differently. -/
theorem renderPreviewContent_extension_overrides :
    "text/plain".toList ≠ [] ∧ "text/plain".toList ≠ "application/octet-stream".toList ∧
      tierContentTypeTest Text "text/plain".toList = true ∧
      renderPreviewContent "text/plain".toList "a.png".toList = some Image ∧
      renderPreviewContent "text/plain".toList "a.txt".toList = some Text ∧
      renderPreviewContent "text/plain".toList "a.png".toList ≠
        renderPreviewContent "text/plain".toList "a.txt".toList := by
  decide

/-- C5, amended: when `T` is the first tier whose content-type test matches
and the extensions of two file names are in no extension set of a tier tested
before `T`, both names are classified `T`. -/
theorem renderPreviewContent_same_when_no_earlier_extension
    (contentType name1 name2 ext1 ext2 : Str) (T : RenderStrategy)
    (hT : tierOrder.find? (fun t => tierContentTypeTest t contentType) = some T)
    (h1 : getFileExtension name1 = some ext1) (h2 : getFileExtension name2 = some ext2)
    (hbefore : ∀ U ∈ tierOrder.takeWhile (fun U => decide (U ≠ T)),
      ext1 ∉ tierExtensions U ∧ ext2 ∉ tierExtensions U) :
    renderPreviewContent contentType name1 = some T ∧
      renderPreviewContent contentType name2 = some T := by
  have key : ∀ ext, (∀ U ∈ tierOrder.takeWhile (fun U => decide (U ≠ T)),
      ext ∉ tierExtensions U) → firstMatchingTier contentType ext = T := by
    intro ext hext
    have := find?_or_of_before (fun t => tierContentTypeTest t contentType)
      (fun t => decide (ext ∈ tierExtensions t)) tierOrder T hT
      (fun U hU => by simpa using hext U hU)
    unfold firstMatchingTier tierMatches
    rw [this]
    rfl
  simp only [renderPreviewContent, h1, h2, selectStrategy_eq_firstMatchingTier]
  exact ⟨by rw [key ext1 (fun U hU => (hbefore U hU).1)],
    by rw [key ext2 (fun U hU => (hbefore U hU).2)]⟩

/-- Witness of C5 amended: `text/plain` with `notes.md` and `page.html`. -/
theorem renderPreviewContent_same_when_no_earlier_extension_witness :
    renderPreviewContent "text/plain".toList "notes.md".toList = some Text ∧
      renderPreviewContent "text/plain".toList "page.html".toList = some Text :=
  renderPreviewContent_same_when_no_earlier_extension "text/plain".toList "notes.md".toList
    "page.html".toList "md".toList "html".toList Text (by decide) (by decide) (by decide)
    (by decide)

/-- C6 at the document name `Java` with the generic content type: the name has
no `.`, `getFileExtension` returns the whole name in lower case, and the
preview is classified Text instead of Unsupported. -/
theorem renderPreviewContent_dotless_name :
    '.' ∉ "Java".toList ∧
      getFileExtension "Java".toList = some "java".toList ∧
      renderPreviewContent "application/octet-stream".toList "Java".toList = some Text := by
  decide

/-! ## Facts about `trim`, `split` and `joinWith` -/

theorem trimStart_eq_self (s : Str) (h : ∀ c, s.head? = some c → isWhiteSpace c = false) :
    trimStart s = s := by
  cases s with
  | nil => rfl
  | cons c cs =>
    have hc : isWhiteSpace c = false := h c rfl
    simp [trimStart, List.dropWhile, hc]

theorem trim_eq_self (s : Str) (h : noEdgeWhiteSpace s = true) : trim s = s := by
  simp only [noEdgeWhiteSpace, Bool.and_eq_true] at h
  have h1 : ∀ c, s.head? = some c → isWhiteSpace c = false := by
    intro c hc
    simpa [hc] using h.1
  have h2 : ∀ c, s.reverse.head? = some c → isWhiteSpace c = false := by
    intro c hc
    rw [List.head?_reverse] at hc
    simpa [hc] using h.2
  unfold trim
  rw [trimStart_eq_self s h1, trimStart_eq_self s.reverse h2, List.reverse_reverse]

theorem all_trimStart (s : Str) :
    (∀ x ∈ trimStart s, isWhiteSpace x = true) ↔ ∀ x ∈ s, isWhiteSpace x = true := by
  constructor
  · intro h x hx
    rw [← List.takeWhile_append_dropWhile isWhiteSpace s] at hx
    rcases List.mem_append.mp hx with h1 | h1
    · exact List.mem_takeWhile_imp h1
    · exact h x h1
  · intro h x hx
    exact h x ((List.dropWhile_suffix isWhiteSpace).subset hx)

theorem trim_eq_nil_iff (s : Str) : trim s = [] ↔ isBlank s = true := by
  unfold trim isBlank
  rw [List.reverse_eq_nil_iff]
  unfold trimStart
  rw [List.dropWhile_eq_nil_iff, List.all_eq_true]
  constructor
  · intro h
    exact (all_trimStart s).mp (fun x hx => h x (List.mem_reverse.mpr hx))
  · intro h x hx
    exact (all_trimStart s).mpr h x (List.mem_reverse.mp hx)

theorem split_append_sep (sep : Char) (s rest : Str) (h : sep ∉ s) :
    split sep (s ++ sep :: rest) = s :: split sep rest := by
  induction s with
  | nil => simp [split]
  | cons c cs ih =>
    have hc : c ≠ sep := fun e => h (e ▸ List.mem_cons_self _ _)
    have hcs : sep ∉ cs := fun e => h (List.mem_cons_of_mem _ e)
    simp [split, hc, ih hcs]

theorem split_joinWith (sep : Char) (pieces : List Str) (hne : pieces ≠ [])
    (h : ∀ p ∈ pieces, sep ∉ p) : split sep (joinWith sep pieces) = pieces := by
  induction pieces with
  | nil => exact absurd rfl hne
  | cons p ps ih =>
    cases ps with
    | nil => simpa [joinWith] using split_of_not_mem sep p (h p (List.mem_cons_self _ _))
    | cons q qs =>
      have hp : sep ∉ p := h p (List.mem_cons_self _ _)
      have ih2 := ih (by simp) (fun r hr => h r (List.mem_cons_of_mem _ hr))
      simp only [joinWith]
      rw [split_append_sep sep p _ hp, ih2]

/-! ## Facts about the row parser -/

theorem foldl_rowStep_inQuotes (vals : List Str) (cur field : Str) (h : '"' ∉ field) :
    field.foldl rowStep { values := vals, current := cur, inQuotes := true } =
      { values := vals, current := cur ++ field, inQuotes := true } := by
  induction field generalizing cur with
  | nil => simp
  | cons c cs ih =>
    have hc : c ≠ '"' := fun e => h (e ▸ List.mem_cons_self _ _)
    have hcs : '"' ∉ cs := fun e => h (List.mem_cons_of_mem _ e)
    simp [List.foldl, rowStep, hc, ih _ hcs]

theorem foldl_rowStep_quoteField (vals : List Str) (field : Str) (h : '"' ∉ field) :
    (quoteField field).foldl rowStep { values := vals, current := [], inQuotes := false } =
      { values := vals, current := field, inQuotes := false } := by
  unfold quoteField
  rw [List.foldl_cons, List.foldl_append]
  have h0 : rowStep { values := vals, current := [], inQuotes := false } '"' =
      { values := vals, current := [], inQuotes := true } := by
    simp [rowStep]
  rw [h0, foldl_rowStep_inQuotes vals [] field h]
  simp [rowStep]

theorem foldl_rowStep_writeRow (vals : List Str) (f : Str) (rest : List Str)
    (h : ∀ g ∈ f :: rest, '"' ∉ g) :
    ((writeRow (f :: rest)).foldl rowStep
        { values := vals, current := [], inQuotes := false }).values ++
      [trim ((writeRow (f :: rest)).foldl rowStep
        { values := vals, current := [], inQuotes := false }).current] =
      vals ++ (f :: rest).map trim := by
  induction rest generalizing f vals with
  | nil =>
    have hf : '"' ∉ f := h f (List.mem_cons_self _ _)
    simp [writeRow, joinWith, foldl_rowStep_quoteField vals f hf]
  | cons g rest ih =>
    have hf : '"' ∉ f := h f (List.mem_cons_self _ _)
    have hrest : ∀ x ∈ g :: rest, '"' ∉ x := fun x hx => h x (List.mem_cons_of_mem _ hx)
    have hw : writeRow (f :: g :: rest) = quoteField f ++ ',' :: writeRow (g :: rest) := rfl
    have hstep : rowStep { values := vals, current := f, inQuotes := false } ',' =
        { values := vals ++ [trim f], current := [], inQuotes := false } := by
      simp [rowStep]
    rw [hw, List.foldl_append, foldl_rowStep_quoteField vals f hf, List.foldl_cons, hstep,
      ih (vals ++ [trim f]) g hrest]
    simp

theorem map_trim_eq_self (row : List Str) (h : ∀ f ∈ row, noEdgeWhiteSpace f = true) :
    row.map trim = row := by
  induction row with
  | nil => rfl
  | cons f rest ih =>
    rw [List.map_cons, trim_eq_self f (h f (List.mem_cons_self _ _)),
      ih (fun g hg => h g (List.mem_cons_of_mem _ hg))]

theorem parseRow_writeRow (row : List Str) (hne : row ≠ [])
    (h : ∀ f ∈ row, '"' ∉ f ∧ noEdgeWhiteSpace f = true) : parseRow (writeRow row) = row := by
  cases row with
  | nil => exact absurd rfl hne
  | cons f rest =>
    have := foldl_rowStep_writeRow [] f rest (fun g hg => (h g hg).1)
    unfold parseRow
    simp only [this, List.nil_append]
    exact map_trim_eq_self (f :: rest) (fun g hg => (h g hg).2)

theorem quote_mem_writeRow (row : List Str) (hne : row ≠ []) : '"' ∈ writeRow row := by
  cases row with
  | nil => exact absurd rfl hne
  | cons f rest =>
    cases rest with
    | nil => simp [writeRow, joinWith, quoteField]
    | cons g rest => simp [writeRow, joinWith, quoteField]

theorem newline_not_mem_writeRow (row : List Str) (h : ∀ f ∈ row, '\n' ∉ f) :
    '\n' ∉ writeRow row := by
  induction row with
  | nil => simp [writeRow, joinWith]
  | cons f rest ih =>
    have hf : '\n' ∉ f := h f (List.mem_cons_self _ _)
    have ih2 := ih (fun g hg => h g (List.mem_cons_of_mem _ hg))
    cases rest with
    | nil => simpa [writeRow, joinWith, quoteField] using hf
    | cons g rest =>
      have hw : writeRow (f :: g :: rest) = quoteField f ++ ',' :: writeRow (g :: rest) := rfl
      rw [hw]
      simp only [List.mem_append, List.mem_cons, not_or]
      refine ⟨?_, by decide, ih2⟩
      simpa [quoteField] using hf

theorem trim_ne_nil_of_mem (s : Str) (c : Char) (hc : c ∈ s) (hw : isWhiteSpace c = false) :
    trim s ≠ [] := by
  intro h
  have := (trim_eq_nil_iff s).mp h
  simp only [isBlank, List.all_eq_true] at this
  rw [this c hc] at hw
  exact absurd hw (by simp)

theorem count_trimStart (c : Char) (s : Str) (hc : isWhiteSpace c = false) :
    (trimStart s).count c = s.count c := by
  have h0 : (s.takeWhile isWhiteSpace).count c = 0 := by
    apply List.count_eq_zero_of_not_mem
    intro hmem
    rw [List.mem_takeWhile_imp hmem] at hc
    exact absurd hc (by simp)
  have h1 : s.count c = (s.takeWhile isWhiteSpace ++ s.dropWhile isWhiteSpace).count c := by
    rw [List.takeWhile_append_dropWhile]
  rw [h1, List.count_append, h0, Nat.zero_add]
  rfl

theorem count_trim (c : Char) (s : Str) (hc : isWhiteSpace c = false) :
    (trim s).count c = s.count c := by
  unfold trim
  rw [List.count_reverse, count_trimStart c _ hc, List.count_reverse, count_trimStart c _ hc]

theorem quoteCount_append_quote (pre : Str) : quoteCount (pre ++ ['"']) = quoteCount pre + 1 := by
  simp [quoteCount]

theorem quoteCount_append_other (pre : Str) (c : Char) (h : c ≠ '"') :
    quoteCount (pre ++ [c]) = quoteCount pre := by
  simp [quoteCount, List.count_singleton, h]

theorem foldl_rowStep_counts (s pre : Str) (st : RowState)
    (hq : st.inQuotes = decide (quoteCount pre % 2 = 1)) :
    (s.foldl rowStep st).values.length = st.values.length +
        ((withPrefixes pre s).filter
          (fun pc => decide (pc.2 = ',') && decide (quoteCount pc.1 % 2 = 0))).length ∧
      heldCommas (s.foldl rowStep st) = heldCommas st +
        ((withPrefixes pre s).filter
          (fun pc => decide (pc.2 = ',') && decide (quoteCount pc.1 % 2 = 1))).length := by
  induction s generalizing pre st with
  | nil => simp [withPrefixes]
  | cons c cs ih =>
    rw [List.foldl_cons]
    by_cases hc : c = '"'
    · subst hc
      have hstep : rowStep st '"' = { st with inQuotes := !st.inQuotes } := by simp [rowStep]
      have hq2 : (rowStep st '"').inQuotes = decide (quoteCount (pre ++ ['"']) % 2 = 1) := by
        rw [hstep, quoteCount_append_quote]
        simp only [hq]
        rcases Nat.mod_two_eq_zero_or_one (quoteCount pre) with h | h <;>
          simp [h, Nat.add_mod]
      obtain ⟨i1, i2⟩ := ih (pre ++ ['"']) (rowStep st '"') hq2
      rw [i1, i2, hstep]
      simp [withPrefixes, heldCommas]
    · by_cases hcomma : c = ','
      · subst hcomma
        have hpre : quoteCount (pre ++ [',']) = quoteCount pre :=
          quoteCount_append_other pre ',' (by decide)
        rcases Nat.mod_two_eq_zero_or_one (quoteCount pre) with h | h
        · have hin : st.inQuotes = false := by simp [hq, h]
          have hstep : rowStep st ',' =
              { st with values := st.values ++ [trim st.current], current := [] } := by
            simp [rowStep, hin]
          have hq2 : (rowStep st ',').inQuotes = decide (quoteCount (pre ++ [',']) % 2 = 1) := by
            rw [hstep, hpre]; exact hq
          obtain ⟨i1, i2⟩ := ih (pre ++ [',']) (rowStep st ',') hq2
          rw [i1, i2, hstep]
          have hct : (trim st.current).count ',' = st.current.count ',' :=
            count_trim ',' _ (by decide)
          simp [withPrefixes, heldCommas, h, hct]
          omega
        · have hin : st.inQuotes = true := by simp [hq, h]
          have hstep : rowStep st ',' = { st with current := st.current ++ [','] } := by
            simp [rowStep, hin]
          have hq2 : (rowStep st ',').inQuotes = decide (quoteCount (pre ++ [',']) % 2 = 1) := by
            rw [hstep, hpre]; exact hq
          obtain ⟨i1, i2⟩ := ih (pre ++ [',']) (rowStep st ',') hq2
          rw [i1, i2, hstep]
          simp [withPrefixes, heldCommas, h]
          omega
      · have hstep : rowStep st c = { st with current := st.current ++ [c] } := by
          simp [rowStep, hc, hcomma]
        have hq2 : (rowStep st c).inQuotes = decide (quoteCount (pre ++ [c]) % 2 = 1) := by
          rw [hstep, quoteCount_append_other pre c hc]; exact hq
        obtain ⟨i1, i2⟩ := ih (pre ++ [c]) (rowStep st c) hq2
        rw [i1, i2, hstep]
        simp [withPrefixes, heldCommas, hcomma, List.count_singleton]

/-! ## CSV decoding and the header row: the claims -/

/-- C7: for rows of fields without double quote, newline, leading or trailing
white space, each row and the list of rows non-empty, writing every field in
double quotes, joining fields with `,` and rows with a newline, and decoding
the text gives back the rows; and the text `a,b⏎"c,d",e` decodes to
`[["a","b"],["c,d","e"]]`. -/
theorem loadCSVContent_writeCSV (rows : List (List Str)) (hrows : rows ≠ [])
    (hrow : ∀ row ∈ rows, row ≠ [])
    (hfield : ∀ row ∈ rows, ∀ f ∈ row, '"' ∉ f ∧ '\n' ∉ f ∧ noEdgeWhiteSpace f = true) :
    loadCSVContent (writeCSV rows) = rows ∧
      loadCSVContent "a,b\n\"c,d\",e".toList =
        [["a".toList, "b".toList], ["c,d".toList, "e".toList]] := by
  refine ⟨?_, by decide⟩
  have hsplit : split '\n' (writeCSV rows) = rows.map writeRow := by
    apply split_joinWith
    · simpa using hrows
    · intro p hp
      obtain ⟨row, hmem, rfl⟩ := List.mem_map.mp hp
      exact newline_not_mem_writeRow row (fun f hf => (hfield row hmem f hf).2.1)
  have hkeep : (rows.map writeRow).filter (fun row => decide (trim row ≠ [])) =
      rows.map writeRow := by
    rw [List.filter_eq_self]
    intro p hp
    obtain ⟨row, hmem, rfl⟩ := List.mem_map.mp hp
    have := trim_ne_nil_of_mem (writeRow row) '"' (quote_mem_writeRow row (hrow row hmem))
      (by decide)
    simpa using this
  unfold loadCSVContent
  rw [hsplit, hkeep, List.map_map]
  conv_rhs => rw [← List.map_id rows]
  apply List.map_congr_left
  intro row hmem
  exact parseRow_writeRow row (hrow row hmem)
    (fun f hf => ⟨(hfield row hmem f hf).1, (hfield row hmem f hf).2.2⟩)

/-- Witness of C7 at the rows `[["c,d", "e"], [""]]`. -/
theorem loadCSVContent_writeCSV_witness :
    loadCSVContent (writeCSV [["c,d".toList, "e".toList], ["".toList]]) =
        [["c,d".toList, "e".toList], ["".toList]] ∧
      loadCSVContent "a,b\n\"c,d\",e".toList =
        [["a".toList, "b".toList], ["c,d".toList, "e".toList]] :=
  loadCSVContent_writeCSV [["c,d".toList, "e".toList], ["".toList]] (by decide) (by decide)
    (by decide)

/-- C8: the decoder yields one row for each line of the text that is not
blank (empty or white space only), in the order of the lines; blank lines
yield no row. -/
theorem loadCSVContent_rows (text : Str) :
    loadCSVContent text =
        ((split '\n' text).filter (fun line => !isBlank line)).map parseRow ∧
      (loadCSVContent text).length =
        (split '\n' text).countP (fun line => !isBlank line) := by
  have h : loadCSVContent text =
      ((split '\n' text).filter (fun line => !isBlank line)).map parseRow := by
    unfold loadCSVContent
    congr 1
    apply List.filter_congr
    intro line _
    cases hb : isBlank line with
    | true => simpa using (trim_eq_nil_iff line).mpr hb
    | false =>
      have : trim line ≠ [] := fun e => by
        rw [(trim_eq_nil_iff line).mp e] at hb
        exact absurd hb (by simp)
      simpa using this
  refine ⟨h, ?_⟩
  rw [h, List.length_map, List.countP_eq_length_filter]

/-- C9: the row parsed from a line has `1 + k` fields, `k` the number of
commas of the line preceded by an even number of double quotes; the commas
preceded by an odd number of double quotes are all kept in the fields. -/
theorem parseRow_length (line : Str) :
    (parseRow line).length = 1 + separatorCount line ∧
      ((parseRow line).map (List.count ',')).sum = quotedCommaCount line := by
  obtain ⟨h1, h2⟩ := foldl_rowStep_counts line []
    { values := [], current := [], inQuotes := false } (by decide)
  constructor
  · unfold parseRow separatorCount
    simp only [List.length_append, h1]
    simp
    omega
  · unfold parseRow quotedCommaCount
    have hct := count_trim ','
      (line.foldl rowStep { values := [], current := [], inQuotes := false }).current
      (by decide)
    simp only [heldCommas] at h2
    simp only [List.map_append, List.sum_append, List.map_cons, List.map_nil, List.sum_cons,
      List.sum_nil, hct, Nat.add_zero]
    rw [h2]
    simp

/-- C10: the header cells are as many as the cells of the header row; cell `i`
(from 0) is the header cell when that is not empty and `Column ` followed by
`i + 1` in decimal when it is empty; the header row `["", "x"]` gives
`["Column 1", "x"]`. -/
theorem headerCells_fallback (headers : List Str) :
    (headerCells headers).length = headers.length ∧
      (∀ i : Nat, (headerCells headers)[i]? =
        headers[i]?.map (fun cell =>
          if cell = [] then "Column ".toList ++ (Nat.repr (i + 1)).toList else cell)) ∧
      headerCells ["".toList, "x".toList] = ["Column 1".toList, "x".toList] := by
  refine ⟨by simp [headerCells], ?_, by decide⟩
  intro i
  simp only [headerCells, List.getElem?_mapIdx]
  cases headers[i]? with
  | none => rfl
  | some cell =>
    by_cases hcell : cell = []
    · subst hcell
      rfl
    · simp [orElse, hcell]

/-! ## The CSV table: the claims -/

/-- C11: the body rows of the table are the cells of the first data rows, every
body row has as many cells as the header row, and cell `j` is the `j`-th field
of the data row when it has one and the empty string otherwise. -/
theorem rowCells_fill (headers : List Str) (rest : List (List Str)) :
    (CSVFilePreview (headers :: rest)).body = (rest.take 50).map (rowCells headers) ∧
      ∀ row : List Str, (rowCells headers row).length = headers.length ∧
        ∀ j : Nat, (rowCells headers row)[j]? =
          if j < headers.length then some (row[j]?.getD []) else none := by
  refine ⟨rfl, fun row => ⟨by simp [rowCells], fun j => ?_⟩⟩
  simp only [rowCells, List.getElem?_mapIdx]
  by_cases hj : j < headers.length
  · rw [if_pos hj, List.getElem?_eq_getElem hj]
    cases hrow : row[j]? with
    | none => rfl
    | some cell =>
      by_cases hcell : cell = []
      · simp [orElse, hcell]
      · simp [orElse, hcell]
  · rw [if_neg hj, List.getElem?_eq_none (Nat.le_of_not_lt hj)]
    rfl

/-- C12: with `n` data rows after the header row, the table has `min n 50` body
rows, body row `i` being made from data row `i`; with 80 data rows it has 50. -/
theorem CSVFilePreview_truncation (headers : List Str) (rest : List (List Str)) :
    (CSVFilePreview (headers :: rest)).body.length = min rest.length 50 ∧
      (CSVFilePreview (headers :: rest)).body =
        (rest.take (min rest.length 50)).map (rowCells headers) ∧
      (∀ i : Nat, (CSVFilePreview (headers :: rest)).body[i]? =
        if i < 50 then rest[i]?.map (rowCells headers) else none) ∧
      (CSVFilePreview (["h".toList] :: List.replicate 80 ["x".toList])).body.length = 50 := by
  have hbody : (CSVFilePreview (headers :: rest)).body =
      (rest.take 50).map (rowCells headers) := rfl
  refine ⟨?_, ?_, ?_, by decide⟩
  · rw [hbody, List.length_map, List.length_take, Nat.min_comm]
  · rw [hbody]
    congr 1
    rcases Nat.le_total rest.length 50 with h | h
    · rw [Nat.min_eq_left h, List.take_of_length_le h, List.take_of_length_le (Nat.le_refl _)]
    · rw [Nat.min_eq_right h]
  · intro i
    rw [hbody, List.getElem?_map, List.getElem?_take]
    by_cases hi : i < 50
    · simp [hi]
    · simp [hi]

/-- C13, as stated, fails: with 80 data rows the notice reads `Showing first 50
rows of 80 total rows`; it names the total 80, and the number 30 of further
rows does not occur in it. -/
theorem truncationNotice_names_total :
    (CSVFilePreview (["h".toList] :: List.replicate 80 ["x".toList])).notice? =
        some "Showing first 50 rows of 80 total rows".toList ∧
      includes "Showing first 50 rows of 80 total rows".toList "30".toList = false := by
  decide

/-- C13, amended: the notice is shown exactly when the number `n` of data rows
exceeds 50, and it names the number of rows shown, 50, and the total `n`. -/
theorem truncationNotice_iff (headers : List Str) (rest : List (List Str)) :
    ((CSVFilePreview (headers :: rest)).notice?.isSome = true ↔ rest.length > 50) ∧
      (CSVFilePreview (headers :: rest)).notice? =
        if rest.length > 50 then
          some ("Showing first 50 rows of ".toList ++ (Nat.repr rest.length).toList ++
            " total rows".toList)
        else none := by
  have hn : (CSVFilePreview (headers :: rest)).notice? =
      if rest.length > 50 then some (truncationNotice rest.length) else none := rfl
  constructor
  · rw [hn]
    by_cases h : rest.length > 50
    · simp [h]
    · simp [h]
  · rw [hn]
    by_cases h : rest.length > 50
    · rw [if_pos h, if_pos h]
      rfl
    · rw [if_neg h, if_neg h]

/-! ## Facts about the file name pattern and the modal -/

theorem filenameMatch_attachment (v : Str) :
    filenameMatch ("attachment; filename=".toList ++ v) = some (filenameValue v) := by
  have e : "attachment; filename=".toList =
      ['a', 't', 't', 'a', 'c', 'h', 'm', 'e', 'n', 't', ';', ' ',
       'f', 'i', 'l', 'e', 'n', 'a', 'm', 'e', '='] := by decide
  rw [e]
  simp [filenameMatch, filenameMatchAt, List.isPrefixOf]

theorem filenameValue_quoted (n : Str)
    (h : ∀ c ∈ n, c ≠ '"' ∧ c ≠ apostrophe ∧ isLineTerminator c = false) :
    filenameValue ('"' :: (n ++ ['"'])) = '"' :: (n ++ ['"']) := by
  have hp : ∀ c ∈ n, (!(decide (c = '"') || isLineTerminator c)) = true := by
    intro c hc
    obtain ⟨h1, -, h3⟩ := h c hc
    simp [h1, h3]
  have hd : (n ++ ['"']).dropWhile (fun c => !(decide (c = '"') || isLineTerminator c)) =
      ['"'] := by
    rw [List.dropWhile_append_of_pos hp]
    simp [List.dropWhile]
  have ht : (n ++ ['"']).takeWhile (fun c => !(decide (c = '"') || isLineTerminator c)) =
      n := by
    rw [List.takeWhile_append_of_pos hp]
    simp [List.takeWhile]
  simp only [filenameValue]
  rw [if_pos (by decide), hd]
  simp only [if_true, ht]

theorem removeQuotes_of_no_quote (n : Str) (h : ∀ c ∈ n, c ≠ '"' ∧ c ≠ apostrophe) :
    removeQuotes n = n := by
  unfold removeQuotes
  rw [List.filter_eq_self]
  intro c hc
  obtain ⟨h1, h2⟩ := h c hc
  simp [h1, h2]

theorem loadPreview_of_link (doc : FileDocument) (link : Str) (w : World)
    (h : truthyLink doc = some link) :
    loadPreview (some doc) w =
      { w with loading := true, error := [],
               requests := w.requests ++ [previewUrl w.env link],
               inFlight := w.inFlight ++ [w.requests.length] } := by
  simp [loadPreview, h]

theorem loadPreviewSettled_ok (i : Nat) (response : Response) (w : World)
    (h : i ∈ w.inFlight) :
    loadPreviewSettled i (some response) w =
      { setPreviewData (some (previewFile response w).1)
          (previewFile response
            { w with inFlight := w.inFlight.filter (fun j => decide (j ≠ i)) }).2 with
        loading := false } := by
  simp [loadPreviewSettled, h, previewFile]

theorem loadPreviewSettled_failed (i : Nat) (w : World) (h : i ∈ w.inFlight) :
    loadPreviewSettled i none w =
      { w with inFlight := w.inFlight.filter (fun j => decide (j ≠ i)),
               error := "Failed to load file preview".toList, loading := false } := by
  simp [loadPreviewSettled, h]

/-! ## Preview acquisition and the modal: the claims -/

/-- C14: for a document whose `shareableLink` is absent or empty, `loadPreview`
ends with the not-shareable error and `loading` false, leaves `previewData` as
it was, and issues no request; on the pages, `handlePreview` sets the page
error and does not open the modal. -/
theorem loadPreview_not_shareable (doc : FileDocument) (w : World) (page : PageState)
    (h : doc.shareableLink = none ∨ doc.shareableLink = some []) :
    loadPreview (some doc) w = { w with loading := false, error := notShareableMessage } ∧
      previewEffect true (some doc) w = loadPreview (some doc) w ∧
      (loadPreview (some doc) w).previewData = w.previewData ∧
      (loadPreview (some doc) w).requests = w.requests ∧
      (loadPreview (some doc) w).inFlight = w.inFlight ∧
      (handlePreview doc page).showPreviewModal = page.showPreviewModal ∧
      (handlePreview doc page).previewDocument = page.previewDocument ∧
      (handlePreview doc page).error ≠ [] := by
  have hl : truthyLink doc = none := by
    rcases h with h | h <;> simp [truthyLink, h]
  have hlp : loadPreview (some doc) w =
      { w with loading := false, error := notShareableMessage } := by
    simp [loadPreview, hl]
  refine ⟨hlp, by simp [previewEffect], ?_, ?_, ?_, ?_, ?_, ?_⟩
  · rw [hlp]
  · rw [hlp]
  · rw [hlp]
  · simp [handlePreview, hl]
  · simp [handlePreview, hl]
  · simp only [handlePreview, hl, if_true]
    decide

/-- Witness of C14 at a document without link, on a fresh modal. -/
theorem loadPreview_not_shareable_witness :
    loadPreview (some { name := "a.txt".toList, shareableLink := none }) World.initial =
        { World.initial with loading := false, error := notShareableMessage } ∧
      (loadPreview (some { name := "a.txt".toList, shareableLink := none })
        World.initial).requests = [] :=
  have h := loadPreview_not_shareable { name := "a.txt".toList, shareableLink := none }
    World.initial { error := [], previewDocument := none, showPreviewModal := false }
    (Or.inl rfl)
  ⟨h.1, h.2.2.2.1⟩

/-- C15, as stated, fails: a document named `report.pdf` whose response has no
`Content-Disposition` header gets the file name `file`, not the document's
name. -/
theorem previewFile_filename_not_document_name :
    (loadPreviewSettled 0
        (some { contentType := some "application/pdf".toList, contentDisposition := none,
                size := 10 })
        (loadPreview (some { name := "report.pdf".toList, shareableLink := some "abc".toList })
          World.initial)).previewData.map PreviewData.filename = some "file".toList := by
  decide

/-- C15, amended: the file name of an acquired preview depends on the response
only, not on the document: it is the name the pattern finds in the
`Content-Disposition` header (`n` for the header `attachment; filename="n"`),
and the placeholder `file` when the header is absent or empty. -/
theorem previewFile_filename (doc : FileDocument) (link : Str) (w : World)
    (response : Response) (n : Str) (hl : truthyLink doc = some link)
    (hn : ∀ c ∈ n, c ≠ '"' ∧ c ≠ apostrophe ∧ isLineTerminator c = false) :
    (loadPreviewSettled w.requests.length (some response)
        (loadPreview (some doc) w)).previewData.map PreviewData.filename =
        some (filenameOf response.contentDisposition) ∧
      filenameOf (some ("attachment; filename=".toList ++ '"' :: (n ++ ['"']))) = n ∧
      filenameOf none = "file".toList ∧ filenameOf (some []) = "file".toList := by
  refine ⟨?_, ?_, by decide, by decide⟩
  · rw [loadPreview_of_link doc link w hl, loadPreviewSettled_ok _ _ _ (by simp)]
    simp [setPreviewData, previewFile, previewObject]
  · simp only [filenameOf, valueOr, orElse]
    rw [if_pos (by simp), filenameMatch_attachment, filenameValue_quoted n hn]
    have h1 : removeQuotes ('"' :: (n ++ ['"'])) = removeQuotes n := by
      simp [removeQuotes, List.filter_cons, List.filter_append]
    simp only [h1, removeQuotes_of_no_quote n (fun c hc => ⟨(hn c hc).1, (hn c hc).2.1⟩)]

/-- Witness of C15 amended at the header `attachment; filename="b.csv"`. -/
theorem previewFile_filename_witness :
    filenameOf (some ("attachment; filename=".toList ++ '"' :: ("b.csv".toList ++ ['"']))) =
      "b.csv".toList :=
  (previewFile_filename { name := "report.pdf".toList, shareableLink := some "abc".toList }
    "abc".toList World.initial
    { contentType := none, contentDisposition := none, size := 0 } "b.csv".toList
    (by decide) (by decide)).2.1

/-- C16, as stated, fails: a zero-byte response for `data.csv` served as
`text/csv`, which is classified CSV, is acquired without error: the preview is
stored, with size 0. -/
theorem previewFile_empty_body_acquired :
    renderPreviewContent "text/csv".toList "data.csv".toList = some CSV ∧
      (loadPreviewSettled 0
        (some { contentType := some "text/csv".toList, contentDisposition := none, size := 0 })
        (loadPreview (some { name := "data.csv".toList, shareableLink := some "abc".toList })
          World.initial)).error = [] ∧
      (loadPreviewSettled 0
        (some { contentType := some "text/csv".toList, contentDisposition := none, size := 0 })
        (loadPreview (some { name := "data.csv".toList, shareableLink := some "abc".toList })
          World.initial)).previewData =
        some (previewObject 0
          { contentType := some "text/csv".toList, contentDisposition := none, size := 0 }) := by
  decide

/-- C16, amended: a zero-byte response is acquired like any other: the preview
object is stored with size 0 and no error is set; the CSV table then shows the
no-data alert for the empty text. -/
theorem previewFile_empty_body (doc : FileDocument) (link : Str) (w : World)
    (response : Response) (hl : truthyLink doc = some link) (hz : response.size = 0) :
    (loadPreviewSettled w.requests.length (some response) (loadPreview (some doc) w)).error =
        [] ∧
      (loadPreviewSettled w.requests.length (some response)
        (loadPreview (some doc) w)).loading = false ∧
      (loadPreviewSettled w.requests.length (some response)
        (loadPreview (some doc) w)).previewData = some (previewObject w.nextUrl response) ∧
      (previewObject w.nextUrl response).document.size = 0 ∧
      CSVFilePreview (loadCSVContent []) = CSVView.noData := by
  rw [loadPreview_of_link doc link w hl, loadPreviewSettled_ok _ _ _ (by simp)]
  refine ⟨?_, ?_, ?_, ?_, by decide⟩
  · cases hp : w.previewData <;> simp [setPreviewData, previewFile, cleanup, revokeObjectURL, hp]
  · simp
  · simp [setPreviewData, previewFile]
  · simp [previewObject, hz]

/-- Witness of C16 amended at `data.csv` on a fresh modal. -/
theorem previewFile_empty_body_witness :
    (loadPreviewSettled 0
        (some { contentType := some "text/csv".toList, contentDisposition := none, size := 0 })
        (loadPreview (some { name := "data.csv".toList, shareableLink := some "abc".toList })
          World.initial)).loading = false :=
  (previewFile_empty_body { name := "data.csv".toList, shareableLink := some "abc".toList }
    "abc".toList World.initial
    { contentType := some "text/csv".toList, contentDisposition := none, size := 0 }
    (by decide) rfl).2.1

/-- C17: for the preview object `previewFile` returns, a second call of
`cleanup` leaves the live object URLs as the first call left them (the URL of
the object is not among them); the call only adds to the log of calls. -/
theorem cleanup_idempotent (response : Response) (w0 w : World) :
    (cleanup (previewFile response w0).1 (cleanup (previewFile response w0).1 w)).liveUrls =
        (cleanup (previewFile response w0).1 w).liveUrls ∧
      (previewFile response w0).1.url ∉ (cleanup (previewFile response w0).1 w).liveUrls ∧
      cleanup (previewFile response w0).1 (cleanup (previewFile response w0).1 w) =
        { cleanup (previewFile response w0).1 w with
          revoked := (cleanup (previewFile response w0).1 w).revoked ++
            [(previewFile response w0).1.url] } := by
  have hl : (cleanup (previewFile response w0).1
      (cleanup (previewFile response w0).1 w)).liveUrls =
      (cleanup (previewFile response w0).1 w).liveUrls := by
    simp [cleanup, revokeObjectURL, List.filter_filter]
  refine ⟨hl, ?_, ?_⟩
  · simp [cleanup, revokeObjectURL, List.mem_filter]
  · simp [cleanup, revokeObjectURL, List.filter_filter]

/-- C18, as stated, fails: after a preview is loaded on a fresh modal and the
modal is closed, `revokeObjectURL` has been called twice for its URL, once by
`handleClose` and once by the cleanup effect. -/
theorem handleClose_releases_twice :
    (handleClose (loadPreviewSettled 0
        (some { contentType := some "image/png".toList, contentDisposition := none, size := 7 })
        (loadPreview (some { name := "a.png".toList, shareableLink := some "abc".toList })
          World.initial))).revoked = [0, 0] ∧
      List.count 0 (handleClose (loadPreviewSettled 0
        (some { contentType := some "image/png".toList, contentDisposition := none, size := 7 })
        (loadPreview (some { name := "a.png".toList, shareableLink := some "abc".toList })
          World.initial))).revoked ≠ 1 := by
  decide

/-- C18, amended: closing a modal that holds a preview calls the release of
that preview twice, in `handleClose` and in the cleanup effect; the second call
changes no object URL: after the close the preview is cleared and its URL, and
no other, has left the live URLs. -/
theorem handleClose_release (w : World) (p : PreviewData) (h : w.previewData = some p) :
    (handleClose w).revoked = w.revoked ++ [p.url, p.url] ∧
      (handleClose w).previewData = none ∧
      (handleClose w).error = [] ∧
      (handleClose w).liveUrls = w.liveUrls.filter (fun u => decide (u ≠ p.url)) ∧
      (handleClose w).liveUrls = (cleanup p w).liveUrls := by
  simp [handleClose, setPreviewData, cleanup, revokeObjectURL, h, List.filter_filter]

/-- Witness of C18 amended at a preview loaded on a fresh modal. -/
theorem handleClose_release_witness :
    (handleClose (loadPreviewSettled 0
        (some { contentType := some "image/png".toList, contentDisposition := none, size := 7 })
        (loadPreview (some { name := "a.png".toList, shareableLink := some "abc".toList })
          World.initial))).previewData = none :=
  (handleClose_release _
    (previewObject 0
      { contentType := some "image/png".toList, contentDisposition := none, size := 7 })
    (by decide)).2.1

/-- C19, as stated, fails: a modal that holds the preview of a first document
and is given a second one enters loading with the first preview still stored,
its URL live and not revoked; when the second fetch fails it stays so. -/
theorem loadPreview_keeps_previous :
    (loadPreview (some { name := "b.csv".toList, shareableLink := some "xyz".toList })
        (loadPreviewSettled 0
          (some { contentType := some "image/png".toList, contentDisposition := none,
                  size := 7 })
          (loadPreview (some { name := "a.png".toList, shareableLink := some "abc".toList })
            World.initial))) =
      { loading := true, error := [],
        previewData := some (previewObject 0
          { contentType := some "image/png".toList, contentDisposition := none, size := 7 }),
        liveUrls := [0], nextUrl := 1, revoked := [],
        requests := [previewUrl none "abc".toList, previewUrl none "xyz".toList],
        inFlight := [1], env := none } ∧
      (loadPreviewSettled 1 none
        (loadPreview (some { name := "b.csv".toList, shareableLink := some "xyz".toList })
          (loadPreviewSettled 0
            (some { contentType := some "image/png".toList, contentDisposition := none,
                    size := 7 })
            (loadPreview (some { name := "a.png".toList, shareableLink := some "abc".toList })
              World.initial)))) =
      { loading := false, error := "Failed to load file preview".toList,
        previewData := some (previewObject 0
          { contentType := some "image/png".toList, contentDisposition := none, size := 7 }),
        liveUrls := [0], nextUrl := 1, revoked := [],
        requests := [previewUrl none "abc".toList, previewUrl none "xyz".toList],
        inFlight := [], env := none } := by
  decide

/-- C19, amended: a modal that holds a preview `p` and is given a new document
enters loading with `p` still stored and nothing revoked; `p` is released when
the new fetch succeeds, at the moment its preview is stored; when the new fetch
fails `p` stays stored, its URL untouched. -/
theorem loadPreview_releases_on_success (w : World) (p : PreviewData) (doc : FileDocument)
    (link : Str) (response : Response) (h : w.previewData = some p)
    (hl : truthyLink doc = some link) :
    (loadPreview (some doc) w).loading = true ∧
      (loadPreview (some doc) w).previewData = some p ∧
      (loadPreview (some doc) w).revoked = w.revoked ∧
      (loadPreview (some doc) w).liveUrls = w.liveUrls ∧
      (loadPreviewSettled w.requests.length (some response)
        (loadPreview (some doc) w)).previewData = some (previewObject w.nextUrl response) ∧
      (loadPreviewSettled w.requests.length (some response)
        (loadPreview (some doc) w)).revoked = w.revoked ++ [p.url] ∧
      (loadPreviewSettled w.requests.length none (loadPreview (some doc) w)).previewData =
        some p ∧
      (loadPreviewSettled w.requests.length none (loadPreview (some doc) w)).revoked =
        w.revoked ∧
      (loadPreviewSettled w.requests.length none (loadPreview (some doc) w)).liveUrls =
        w.liveUrls := by
  rw [loadPreview_of_link doc link w hl, loadPreviewSettled_ok _ _ _ (by simp),
    loadPreviewSettled_failed _ _ (by simp)]
  simp [setPreviewData, previewFile, cleanup, revokeObjectURL, h]

/-- Witness of C19 amended at a preview loaded on a fresh modal. -/
theorem loadPreview_releases_on_success_witness :
    (loadPreviewSettled 1
        (some { contentType := some "text/csv".toList, contentDisposition := none, size := 3 })
        (loadPreview (some { name := "b.csv".toList, shareableLink := some "xyz".toList })
          (loadPreviewSettled 0
            (some { contentType := some "image/png".toList, contentDisposition := none,
                    size := 7 })
            (loadPreview (some { name := "a.png".toList, shareableLink := some "abc".toList })
              World.initial)))).revoked = [] ++ [0] :=
  (loadPreview_releases_on_success
    (loadPreviewSettled 0
      (some { contentType := some "image/png".toList, contentDisposition := none, size := 7 })
      (loadPreview (some { name := "a.png".toList, shareableLink := some "abc".toList })
        World.initial))
    (previewObject 0
      { contentType := some "image/png".toList, contentDisposition := none, size := 7 })
    { name := "b.csv".toList, shareableLink := some "xyz".toList } "xyz".toList
    { contentType := some "text/csv".toList, contentDisposition := none, size := 3 }
    (by decide) (by decide)).2.2.2.2.2.1

/-- C20, as stated, fails: previews are requested for `a.png` and then for
`b.csv`; when the fetch for `b.csv` settles first and the one for `a.png` after
it, the preview of `a.png` is the one stored and shown, its URL live, and the
preview of `b.csv` is the one released; when `a.png` settles first its preview
is stored and shown until `b.csv` settles. -/
theorem loadPreviewSettled_stale_stored :
    (loadPreviewSettled 0
        (some { contentType := some "image/png".toList, contentDisposition := none,
                size := 7 })
        (loadPreviewSettled 1
          (some { contentType := some "text/csv".toList, contentDisposition := none,
                  size := 3 })
          (loadPreview (some { name := "b.csv".toList, shareableLink := some "xyz".toList })
            (loadPreview (some { name := "a.png".toList, shareableLink := some "abc".toList })
              World.initial)))) =
      { loading := false, error := [],
        previewData := some (previewObject 1
          { contentType := some "image/png".toList, contentDisposition := none, size := 7 }),
        liveUrls := [1], nextUrl := 2, revoked := [0],
        requests := [previewUrl none "abc".toList, previewUrl none "xyz".toList],
        inFlight := [], env := none } ∧
      (loadPreviewSettled 0
        (some { contentType := some "image/png".toList, contentDisposition := none,
                size := 7 })
        (loadPreview (some { name := "b.csv".toList, shareableLink := some "xyz".toList })
          (loadPreview (some { name := "a.png".toList, shareableLink := some "abc".toList })
            World.initial))) =
      { loading := false, error := [],
        previewData := some (previewObject 0
          { contentType := some "image/png".toList, contentDisposition := none, size := 7 }),
        liveUrls := [0], nextUrl := 1, revoked := [],
        requests := [previewUrl none "abc".toList, previewUrl none "xyz".toList],
        inFlight := [1], env := none } := by
  decide

/-- C20, amended: there is no check for a superseded request: each fetch that
succeeds stores its preview, releasing the one stored before.  With previews
requested for A and then B on a modal holding none: if A settles first its
preview is stored until B settles, then B's is stored and A's released; if B
settles first, A's preview replaces it when A settles, B's is released and A's
stays stored, its URL live. -/
theorem loadPreviewSettled_last_wins (w : World) (docA docB : FileDocument)
    (linkA linkB : Str) (rA rB : Response) (h : w.previewData = none)
    (hA : truthyLink docA = some linkA) (hB : truthyLink docB = some linkB) :
    (loadPreviewSettled w.requests.length (some rA)
        (loadPreview (some docB) (loadPreview (some docA) w))).previewData =
        some (previewObject w.nextUrl rA) ∧
      (loadPreviewSettled w.requests.length (some rA)
        (loadPreview (some docB) (loadPreview (some docA) w))).loading = false ∧
      (loadPreviewSettled (w.requests.length + 1) (some rB)
        (loadPreviewSettled w.requests.length (some rA)
          (loadPreview (some docB) (loadPreview (some docA) w)))).previewData =
        some (previewObject (w.nextUrl + 1) rB) ∧
      (loadPreviewSettled (w.requests.length + 1) (some rB)
        (loadPreviewSettled w.requests.length (some rA)
          (loadPreview (some docB) (loadPreview (some docA) w)))).revoked =
        w.revoked ++ [w.nextUrl] ∧
      (loadPreviewSettled w.requests.length (some rA)
        (loadPreviewSettled (w.requests.length + 1) (some rB)
          (loadPreview (some docB) (loadPreview (some docA) w)))).previewData =
        some (previewObject (w.nextUrl + 1) rA) ∧
      (loadPreviewSettled w.requests.length (some rA)
        (loadPreviewSettled (w.requests.length + 1) (some rB)
          (loadPreview (some docB) (loadPreview (some docA) w)))).revoked =
        w.revoked ++ [w.nextUrl] ∧
      (w.nextUrl + 1) ∈ (loadPreviewSettled w.requests.length (some rA)
        (loadPreviewSettled (w.requests.length + 1) (some rB)
          (loadPreview (some docB) (loadPreview (some docA) w)))).liveUrls := by
  have hlen : w.requests.length + 1 ≠ w.requests.length := by omega
  have hlen2 : w.requests.length ≠ w.requests.length + 1 := by omega
  have hurl : ∀ (u : Nat) (r : Response), (previewObject u r).url = u := fun _ _ => rfl
  simp [loadPreview, loadPreviewSettled, hA, hB, h, setPreviewData, previewFile, cleanup,
    revokeObjectURL, List.filter_append, hlen, hlen2, hurl]

/-- Witness of C20 amended at `a.png` and `b.csv` on a fresh modal. -/
theorem loadPreviewSettled_last_wins_witness :
    (loadPreviewSettled 0
        (some { contentType := some "image/png".toList, contentDisposition := none,
                size := 7 })
        (loadPreviewSettled (0 + 1)
          (some { contentType := some "text/csv".toList, contentDisposition := none,
                  size := 3 })
          (loadPreview (some { name := "b.csv".toList, shareableLink := some "xyz".toList })
            (loadPreview (some { name := "a.png".toList, shareableLink := some "abc".toList })
              World.initial)))).previewData =
      some (previewObject (0 + 1)
        { contentType := some "image/png".toList, contentDisposition := none, size := 7 }) :=
  (loadPreviewSettled_last_wins World.initial
    { name := "a.png".toList, shareableLink := some "abc".toList }
    { name := "b.csv".toList, shareableLink := some "xyz".toList } "abc".toList "xyz".toList
    { contentType := some "image/png".toList, contentDisposition := none, size := 7 }
    { contentType := some "text/csv".toList, contentDisposition := none, size := 3 }
    rfl (by decide) (by decide)).2.2.2.2.1

/-! ## The HTTP operations and the pages: the claims -/

theorem ApiCall.authorization_eq (env token : Option Str) (call : ApiCall) :
    (call.request env token).header "Authorization".toList = some (bearer token) := by
  cases call <;> simp [ApiCall.request, Request.header, jsonHeaders, authHeaders, List.find?]

/-- C21, as stated, fails: with no token in storage `getMyDocuments` issues
its request, with the header `Authorization: Bearer null`. -/
theorem getMyDocuments_without_token :
    ApiCall.issued none none ApiCall.getMyDocuments =
      [{ method := Method.GET,
         url := "http://localhost:8080/api/documents/my-files".toList,
         headers := [("Authorization".toList, "Bearer null".toList),
           ("Content-Type".toList, "application/json".toList)],
         blob := false }] := by
  decide

/-- C21, amended: the operations of `documentAPI` and `adminAPI` have no test
of the token: with no token in storage every operation issues its one request,
whose `Authorization` header is `Bearer null`. -/
theorem ApiCall.issued_without_token (env : Option Str) (call : ApiCall) :
    call.issued env none = [call.request env none] ∧
      (call.issued env none).map (fun r => r.header "Authorization".toList) =
        [some "Bearer null".toList] := by
  refine ⟨rfl, ?_⟩
  simp only [ApiCall.issued, List.map_cons, List.map_nil, ApiCall.authorization_eq]
  rfl

/-- C22: for every operation and every token `t` held in storage when the
operation is called, the request issued carries `Authorization: Bearer t`;
after the token is set to `t` this is so whatever was stored before, and after
it is removed the header does not depend on what was stored before. -/
theorem ApiCall.issued_bearer (env stored : Option Str) (t : Str) (call : ApiCall) :
    (call.issued env (some t)).map (fun r => r.header "Authorization".toList) =
        [some ("Bearer ".toList ++ t)] ∧
      (call.issued env (setItem t stored)).map (fun r => r.header "Authorization".toList) =
        [some ("Bearer ".toList ++ t)] ∧
      (call.issued env (removeItem stored)).map (fun r => r.header "Authorization".toList) =
        (call.issued env none).map (fun r => r.header "Authorization".toList) := by
  refine ⟨?_, ?_, rfl⟩
  · simp only [ApiCall.issued, List.map_cons, List.map_nil, ApiCall.authorization_eq]
    rfl
  · simp only [ApiCall.issued, setItem, List.map_cons, List.map_nil, ApiCall.authorization_eq]
    rfl

/-- C23 at the base URL `https://files.example.com/api` and the handle `abc`:
`previewFile` and `publicAPI.downloadSharedDocument` request
`https://files.example.com/api/documents/share/abc`, the `copyShareableLink`
handlers request `https://files.example.com/api/api/documents/share/abc`. -/
theorem copyShareableLinkUrl_doubles_api :
    includes "abc".toList ['/'] = false ∧
      previewUrl (some "https://files.example.com/api".toList) "abc".toList =
        "https://files.example.com/api/documents/share/abc".toList ∧
      downloadSharedDocumentUrl (some "https://files.example.com/api".toList) "abc".toList =
        "https://files.example.com/api/documents/share/abc".toList ∧
      copyShareableLinkUrl (some "https://files.example.com/api".toList) "abc".toList =
        "https://files.example.com/api/api/documents/share/abc".toList ∧
      copyShareableLinkUrl none "abc".toList = previewUrl none "abc".toList := by
  decide

/-- C24: each delete handler issues its delete request exactly when the
confirmation returned true; when it returned false no request is issued and
the page state is unchanged. -/
theorem delete_handlers_confirm (env token : Option Str) (admin confirmed deleted : Bool)
    (id : Str) (page : ListPage) :
    ((ApiCall.deleteDocument id).request env token ∈
        (MyFiles.handleDelete env token admin confirmed deleted id page).2 ↔
        confirmed = true) ∧
      ((ApiCall.adminDeleteTeamDocument id).request env token ∈
        (TeamFiles.handleAdminDelete env token admin confirmed deleted id page).2 ↔
        confirmed = true) ∧
      ((ApiCall.adminDeleteUser id).request env token ∈
        (AdminPortal.handleDeleteUser env token confirmed deleted id page).2 ↔
        confirmed = true) ∧
      MyFiles.handleDelete env token admin false deleted id page = (page, []) ∧
      TeamFiles.handleAdminDelete env token admin false deleted id page = (page, []) ∧
      AdminPortal.handleDeleteUser env token false deleted id page = (page, []) := by
  refine ⟨?_, ?_, ?_, rfl, rfl, rfl⟩
  · cases confirmed <;> cases deleted <;> simp [MyFiles.handleDelete]
  · cases confirmed <;> cases deleted <;> simp [TeamFiles.handleAdminDelete]
  · cases confirmed <;> cases deleted <;> simp [AdminPortal.handleDeleteUser]

theorem isLineTerminator_of_isPasswordChar (c : Char) (h : isPasswordChar c = true) :
    isLineTerminator c = false := by
  cases hlt : isLineTerminator c with
  | false => rfl
  | true =>
    exfalso
    have hc : c = Char.ofNat c.toNat := (Char.ofNat_toNat c).symm
    simp only [isLineTerminator, Bool.or_eq_true, decide_eq_true_eq] at hlt
    have hn : c.toNat = 10 ∨ c.toNat = 13 ∨ c.toNat = 8232 ∨ c.toNat = 8233 := by
      rcases hlt with ((h1 | h1) | h1) | h1
      · subst h1; exact Or.inl rfl
      · subst h1; exact Or.inr (Or.inl rfl)
      · exact Or.inr (Or.inr (Or.inl h1))
      · exact Or.inr (Or.inr (Or.inr h1))
    rcases hn with h1 | h1 | h1 | h1 <;>
    · rw [h1] at hc
      subst hc
      revert h
      decide

theorem lookAhead_eq_any (cls : Char → Bool) (s : Str)
    (h : ∀ c ∈ s, isLineTerminator c = false) : lookAhead cls s = s.any cls := by
  induction s with
  | nil => rfl
  | cons c cs ih =>
    have hc : isLineTerminator c = false := h c (List.mem_cons_self _ _)
    have ih2 := ih (fun x hx => h x (List.mem_cons_of_mem _ hx))
    cases hcls : cls c with
    | true => simp [lookAhead, List.dropWhile, hc, hcls]
    | false =>
      have : lookAhead cls (c :: cs) = lookAhead cls cs := by
        simp [lookAhead, List.dropWhile, hc, hcls]
      rw [this, ih2]
      simp [hcls]

theorem passwordRegexTest_iff (password : Str) :
    passwordRegexTest password = true ↔
      6 ≤ password.length ∧ password.all isPasswordChar = true ∧
        password.any isUpperLetter = true ∧ password.any isLowerLetter = true ∧
        password.any isDigit = true ∧ password.any isSpecial = true := by
  constructor
  · intro h
    simp only [passwordRegexTest, Bool.and_eq_true, decide_eq_true_eq] at h
    obtain ⟨⟨⟨⟨⟨h1, h2⟩, h3⟩, h4⟩, h5⟩, h6⟩ := h
    have hlt : ∀ c ∈ password, isLineTerminator c = false := fun c hc =>
      isLineTerminator_of_isPasswordChar c (List.all_eq_true.mp h6 c hc)
    rw [lookAhead_eq_any _ _ hlt] at h1 h2 h3 h4
    exact ⟨h5, h6, h2, h1, h3, h4⟩
  · rintro ⟨h5, h6, h2, h1, h3, h4⟩
    have hlt : ∀ c ∈ password, isLineTerminator c = false := fun c hc =>
      isLineTerminator_of_isPasswordChar c (List.all_eq_true.mp h6 c hc)
    simp only [passwordRegexTest, Bool.and_eq_true, decide_eq_true_eq]
    rw [lookAhead_eq_any _ _ hlt, lookAhead_eq_any _ _ hlt, lookAhead_eq_any _ _ hlt,
      lookAhead_eq_any _ _ hlt]
    exact ⟨⟨⟨⟨⟨h1, h2⟩, h3⟩, h4⟩, h5⟩, h6⟩

/-- C25, as stated, fails: the password `Aa1@`, equal to its confirmation,
holds an uppercase letter, a lowercase letter, a digit and a special
character, and the form is rejected with the validation error: no request. -/
theorem handleAddUser_rejects_short :
    "Aa1@".toList.any isUpperLetter = true ∧ "Aa1@".toList.any isLowerLetter = true ∧
      "Aa1@".toList.any isDigit = true ∧ "Aa1@".toList.any isSpecial = true ∧
      handleAddUser none (some "tok".toList) "Aa1@".toList "Aa1@".toList =
        AddUserStep.rejected
          ("Password must contain at least one uppercase letter, one lowercase letter, " ++
            "one number, and one special character").toList := by
  decide

/-- C25, amended: the form proceeds to the `createUser` request exactly when
the password equals the confirmation, has six or more characters, all of them
letters `A`..`Z`, `a`..`z`, digits or one of `@$!%*?&`, and holds an uppercase
letter, a lowercase letter, a digit and one of `@$!%*?&`; otherwise a
validation error is set and no request is issued. -/
theorem handleAddUser_submits_iff (env token : Option Str) (password confirmPassword : Str) :
    (handleAddUser env token password confirmPassword =
        AddUserStep.submitted (ApiCall.adminCreateUser.request env token) ↔
        password = confirmPassword ∧ 6 ≤ password.length ∧
          password.all isPasswordChar = true ∧
          password.any isUpperLetter = true ∧ password.any isLowerLetter = true ∧
          password.any isDigit = true ∧ password.any isSpecial = true) ∧
      (handleAddUser env token password confirmPassword =
          AddUserStep.submitted (ApiCall.adminCreateUser.request env token) ∨
        ∃ error, error ≠ [] ∧
          handleAddUser env token password confirmPassword = AddUserStep.rejected error) := by
  by_cases heq : password = confirmPassword
  · subst heq
    cases ht : passwordRegexTest password with
    | true =>
      have hs : handleAddUser env token password password =
          AddUserStep.submitted (ApiCall.adminCreateUser.request env token) := by
        simp [handleAddUser, ht]
      exact ⟨⟨fun _ => ⟨rfl, (passwordRegexTest_iff password).mp ht⟩, fun _ => hs⟩, Or.inl hs⟩
    | false =>
      have hs : handleAddUser env token password password =
          AddUserStep.rejected
            ("Password must contain at least one uppercase letter, one lowercase letter, " ++
              "one number, and one special character").toList := by
        simp [handleAddUser, ht]
      refine ⟨⟨fun h => ?_, fun h => ?_⟩, Or.inr ⟨_, by decide, hs⟩⟩
      · rw [hs] at h
        exact absurd h (by simp)
      · rw [(passwordRegexTest_iff password).mpr h.2] at ht
        exact absurd ht (by simp)
  · have hs : handleAddUser env token password confirmPassword =
        AddUserStep.rejected "Passwords do not match".toList := by
      simp [handleAddUser, heq]
    refine ⟨⟨fun h => ?_, fun h => absurd h.1 heq⟩, Or.inr ⟨_, by decide, hs⟩⟩
    rw [hs] at h
    exact absurd h (by simp)

/-! ## Quotes in parsed fields and the share form: the claims -/

theorem mem_of_mem_trimStart (s : Str) (x : Char) (h : x ∈ trimStart s) : x ∈ s :=
  (List.dropWhile_suffix isWhiteSpace).subset h

theorem mem_of_mem_trim (s : Str) (x : Char) (h : x ∈ trim s) : x ∈ s := by
  unfold trim at h
  have h1 := mem_of_mem_trimStart _ x (List.mem_reverse.mp h)
  exact mem_of_mem_trimStart s x (List.mem_reverse.mp h1)

theorem foldl_rowStep_no_quote (s : Str) (st : RowState)
    (hv : ∀ f ∈ st.values, '"' ∉ f) (hc : '"' ∉ st.current) :
    (∀ f ∈ (s.foldl rowStep st).values, '"' ∉ f) ∧ '"' ∉ (s.foldl rowStep st).current := by
  induction s generalizing st with
  | nil => exact ⟨hv, hc⟩
  | cons c cs ih =>
    rw [List.foldl_cons]
    by_cases h1 : c = '"'
    · have hstep : rowStep st c = { st with inQuotes := !st.inQuotes } := by
        simp [rowStep, h1]
      rw [hstep]
      exact ih _ hv hc
    · cases h2 : (decide (c = ',') && !st.inQuotes) with
      | true =>
        have hstep : rowStep st c =
            { st with values := st.values ++ [trim st.current], current := [] } := by
          simp only [rowStep, if_neg h1, h2, if_true]
        rw [hstep]
        apply ih
        · intro f hf
          rcases List.mem_append.mp hf with hf | hf
          · exact hv f hf
          · rw [List.mem_singleton.mp hf]
            exact fun hq => hc (mem_of_mem_trim _ _ hq)
        · simp
      | false =>
        have hstep : rowStep st c = { st with current := st.current ++ [c] } := by
          simp only [rowStep, if_neg h1, h2]
          rfl
        rw [hstep]
        apply ih
        · exact hv
        · simp only [List.mem_append, List.mem_singleton, not_or]
          exact ⟨hc, fun e => h1 e.symm⟩

theorem parseRow_no_quote (row f : Str) (h : f ∈ parseRow row) : '"' ∉ f := by
  obtain ⟨h1, h2⟩ := foldl_rowStep_no_quote row
    { values := [], current := [], inQuotes := false } (by simp) (by simp)
  simp only [parseRow, List.mem_append, List.mem_singleton] at h
  rcases h with h | h
  · exact h1 f h
  · rw [h]
    exact fun hq => h2 (mem_of_mem_trim _ _ hq)

/-- C26: no field of a row parsed from any text holds a double quote; the line
`"a""b"` gives the one field `ab`. -/
theorem loadCSVContent_no_quote (text : Str) :
    (loadCSVContent text).all (fun row => row.all (fun f => !f.contains '"')) = true ∧
      parseRow ['"', 'a', '"', '"', 'b', '"'] = ["ab".toList] := by
  refine ⟨?_, by decide⟩
  simp only [List.all_eq_true, Bool.not_eq_true', loadCSVContent, List.mem_map]
  rintro row ⟨line, -, rfl⟩ f hf
  have := parseRow_no_quote line f hf
  simpa using this

theorem split_pieces (sep : Char) (s : Str) :
    ∀ p ∈ split sep s, sep ∉ p ∧ ∀ x ∈ p, x ∈ s := by
  induction s with
  | nil => simp [split]
  | cons c cs ih =>
    intro p hp
    by_cases hc : c = sep
    · simp only [split, if_pos hc, List.mem_cons] at hp
      rcases hp with hp | hp
      · subst hp
        simp
      · exact ⟨(ih p hp).1, fun x hx => List.mem_cons_of_mem _ ((ih p hp).2 x hx)⟩
    · simp only [split, if_neg hc] at hp
      cases hsp : split sep cs with
      | nil => exact absurd hsp (split_ne_nil sep cs)
      | cons q qs =>
        rw [hsp] at hp ih
        simp only [List.mem_cons] at hp
        rcases hp with hp | hp
        · subst hp
          have hq := ih q (List.mem_cons_self _ _)
          refine ⟨?_, ?_⟩
          · simp only [List.mem_cons, not_or]
            exact ⟨fun e => hc e.symm, hq.1⟩
          · intro x hx
            rcases List.mem_cons.mp hx with hx | hx
            · rw [hx]; exact List.mem_cons_self _ _
            · exact List.mem_cons_of_mem _ (hq.2 x hx)
        · have hq := ih p (List.mem_cons_of_mem _ hp)
          exact ⟨hq.1, fun x hx => List.mem_cons_of_mem _ (hq.2 x hx)⟩

theorem exists_mem_split (sep : Char) (s : Str) (x : Char) (hx : x ∈ s) (hne : x ≠ sep) :
    ∃ p ∈ split sep s, x ∈ p := by
  induction s with
  | nil => simp at hx
  | cons c cs ih =>
    by_cases hc : c = sep
    · have hxcs : x ∈ cs := by
        rcases List.mem_cons.mp hx with h | h
        · exact absurd (h.trans hc) hne
        · exact h
      obtain ⟨p, hp, hxp⟩ := ih hxcs
      exact ⟨p, by simp [split, hc, hp], hxp⟩
    · cases hsp : split sep cs with
      | nil => exact absurd hsp (split_ne_nil sep cs)
      | cons q qs =>
        rcases List.mem_cons.mp hx with h | h
        · refine ⟨c :: q, by simp [split, hc, hsp], ?_⟩
          rw [h]
          exact List.mem_cons_self _ _
        · obtain ⟨p, hp, hxp⟩ := ih h
          rw [hsp] at hp
          rcases List.mem_cons.mp hp with hp | hp
          · refine ⟨c :: q, by simp [split, hc, hsp], ?_⟩
            rw [← hp]
            exact List.mem_cons_of_mem _ hxp
          · exact ⟨p, by simp [split, hc, hsp, hp], hxp⟩

theorem head?_trimStart (s : Str) (c : Char) (h : (trimStart s).head? = some c) :
    isWhiteSpace c = false := by
  have := List.head?_dropWhile_not isWhiteSpace s
  unfold trimStart at h
  rw [h] at this
  simpa using this

theorem noEdgeWhiteSpace_trim (s : Str) : noEdgeWhiteSpace (trim s) = true := by
  have hhead : ∀ c, (trimStart (trimStart s).reverse).head? = some c →
      isWhiteSpace c = false := head?_trimStart _
  have hlast : ∀ c, (trimStart (trimStart s).reverse).getLast? = some c →
      isWhiteSpace c = false := by
    intro c hc
    obtain ⟨pre, hpre⟩ : trimStart (trimStart s).reverse <:+ (trimStart s).reverse :=
      List.dropWhile_suffix isWhiteSpace
    have h1 : ((trimStart s).reverse).getLast? = some c := by
      rw [← hpre, List.getLast?_append, hc]
      rfl
    rw [List.getLast?_reverse] at h1
    exact head?_trimStart s c h1
  simp only [noEdgeWhiteSpace, trim, List.head?_reverse, List.getLast?_reverse,
    Bool.and_eq_true]
  constructor
  · cases hl : (trimStart (trimStart s).reverse).getLast? with
    | none => rfl
    | some c => simp [hlast c hl]
  · cases hh : (trimStart (trimStart s).reverse).head? with
    | none => rfl
    | some c => simp [hhead c hh]

/-- C27: the list sent from the share form is the pieces of the input between
commas, each trimmed, the empty ones removed, in order; every entry is
non-empty, has no white space at either end and holds no comma; the list is
empty exactly when the input holds white space and commas only. -/
theorem sharedWithUsers_entries (input : Str) :
    sharedWithUsers input =
        ((split ',' input).map trim).filter (fun user => decide (user ≠ [])) ∧
      (sharedWithUsers input).all
        (fun user => decide (user ≠ []) && noEdgeWhiteSpace user && !user.contains ',') =
        true ∧
      (sharedWithUsers input = [] ↔
        input.all (fun c => isWhiteSpace c || decide (c = ',')) = true) := by
  have hdef : sharedWithUsers input =
      ((split ',' input).map trim).filter (fun user => decide (user ≠ [])) := by
    unfold sharedWithUsers
    apply List.filter_congr
    intro user _
    cases user <;> simp
  refine ⟨hdef, ?_, ?_⟩
  · rw [hdef]
    simp only [List.all_eq_true, List.mem_filter, List.mem_map, Bool.and_eq_true,
      decide_eq_true_eq, Bool.not_eq_true']
    rintro user ⟨⟨p, hp, rfl⟩, hne⟩
    refine ⟨⟨hne, noEdgeWhiteSpace_trim p⟩, ?_⟩
    have hno : ',' ∉ trim p := fun h => (split_pieces ',' input p hp).1 (mem_of_mem_trim _ _ h)
    simpa using hno
  · rw [hdef, List.filter_eq_nil_iff]
    simp only [List.mem_map, decide_eq_true_eq, not_not, List.all_eq_true, Bool.or_eq_true]
    constructor
    · intro h c hc
      by_cases hcomma : c = ','
      · exact Or.inr hcomma
      · left
        obtain ⟨p, hp, hcp⟩ := exists_mem_split ',' input c hc hcomma
        have hblank := (trim_eq_nil_iff p).mp (h (trim p) ⟨p, hp, rfl⟩)
        exact List.all_eq_true.mp hblank c hcp
    · rintro h user ⟨p, hp, rfl⟩
      rw [trim_eq_nil_iff]
      simp only [isBlank, List.all_eq_true]
      intro x hx
      rcases h x ((split_pieces ',' input p hp).2 x hx) with hw | hw
      · exact hw
      · exact absurd (hw ▸ hx) (split_pieces ',' input p hp).1

/-! ## Downloads and file icons: the claims -/

/-- C28 at the document with id `7` named `plan.pdf`, whose download endpoint
returns `%PDF-1.7`: `MyFiles.handleDownload` requests the endpoint and passes
the returned body to `downloadFile`; `TeamFiles.handleDownload` issues no
request and passes the id `7` as the content. -/
theorem TeamFiles_handleDownload_passes_id :
    MyFiles.handleDownload none (some "tok".toList) "%PDF-1.7".toList
        { id := "7".toList, name := "plan.pdf".toList, fileName := "plan.pdf".toList } =
      { requests :=
          [{ method := Method.GET,
             url := "http://localhost:8080/api/documents/7/download".toList,
             headers := [("Authorization".toList, "Bearer tok".toList)],
             blob := true }],
        content := "%PDF-1.7".toList,
        savedAs := "plan.pdf".toList } ∧
      TeamFiles.handleDownload
        { id := "7".toList, name := "plan.pdf".toList, fileName := "plan.pdf".toList } =
      { requests := [], content := "7".toList, savedAs := "plan.pdf".toList } := by
  decide

/-- C29 at a document without `fileType`: `getFileIcon` throws; for every file
type that is a string it returns an icon class. -/
theorem getFileIcon_absent_fileType :
    getFileIcon none = none ∧ ∀ fileType : Str, (getFileIcon (some fileType)).isSome = true := by
  exact ⟨rfl, fun _ => rfl⟩

/-- C30 at the xlsx type: it holds `spreadsheet` and neither `image` nor
`pdf`, and `getFileIcon` returns the Word icon, because the test for
`document` comes first and `officedocument` holds it. -/
theorem getFileIcon_xlsx :
    includes
        (toLowerCase "application/vnd.openxmlformats-officedocument.spreadsheetml.sheet".toList)
        "spreadsheet".toList = true ∧
      includes
        (toLowerCase "application/vnd.openxmlformats-officedocument.spreadsheetml.sheet".toList)
        "image".toList = false ∧
      includes
        (toLowerCase "application/vnd.openxmlformats-officedocument.spreadsheetml.sheet".toList)
        "pdf".toList = false ∧
      getFileIcon
        (some "application/vnd.openxmlformats-officedocument.spreadsheetml.sheet".toList) =
        some "bi-file-earmark-word".toList ∧
      getFileIcon (some "application/vnd.ms-excel".toList) =
        some "bi-file-earmark-excel".toList := by
  decide

end FilePreview
